import Mathlib

/-!
# emp-go: the employee roster state machine

A shallow embedding of `src/main.go`.  The Go program is a terminal
application built on the bubbletea toolkit; its single state object is the
`model` struct and every key press goes through `model.Update`.

What is outside `main.go` is taken as a parameter:

* `float64` arithmetic, `time.Duration.Hours`, `strconv.ParseFloat` and the
  `%.2f` verb of `fmt` are the fields of the class `Float64`;
* the bubbles widgets `list.Model` and `textinput.Model` are the abstract
  types `L` and `T` with the operations of the structure `Toolkit`.

Every theorem holds for all instances of both.  `refToolkit` together with
the `Float64 ℚ` instance is one concrete choice on which the definitions can
be evaluated.

Go's `int` is a 64-bit integer, embedded as an `Int` with the wrap-around of
the arithmetic made explicit: `nextID++` is `wrapInt (nextID + 1)`.  The other
`int` values are indices and lengths of slices, on which the arithmetic of the
program stays within the length of the slice.  `time.Time` is a
number of nanoseconds, `time.Now()` is an argument of the functions calling
it, a `*time.Time` that may be nil is an `Option Time`, and an `error` that
may be nil is an `Option String` holding the message.  The `*Employee`
pointers stored in `m.employees` are embedded as values held in the list;
a write through such a pointer is a `List.set` at its index.
-/

namespace EmpGo

/-! ## Library parameters -/

/-- The float64 operations `main.go` uses, with the library functions
producing or consuming a float64. -/
class Float64 (F : Type) where
  /-- The constant `0.0`. -/
  zero : F
  /-- Addition `+` of two float64. -/
  add : F → F → F
  /-- Multiplication `*` of two float64. -/
  mul : F → F → F
  /-- The comparison `<` of two float64. -/
  lt : F → F → Bool
  /-- The method `Hours` of `time.Duration`, a duration being a number of nanoseconds. -/
  hours : Int → F
  /-- The call `strconv.ParseFloat(s, 64)`; `none` stands for a non-nil error. -/
  parseFloat : String → Option F
  /-- The verb `%.2f` of `fmt.Sprintf`. -/
  fmt2 : F → String

/-- Smallest `int`. -/
def minInt : Int := -9223372036854775808

/-- Largest `int`. -/
def maxInt : Int := 9223372036854775807

/-- The value an `int` takes when the exact result of an operation is `x`: `x`
itself between the smallest and the largest `int`, wrapped around modulo 2^64
outside. -/
def wrapInt (x : Int) : Int :=
  (x + 9223372036854775808) % 18446744073709551616 - 9223372036854775808

/-- A point in time, `time.Time`, in nanoseconds. -/
abbrev Time := Int

/-- Smallest `time.Duration`, the smallest int64. -/
def minDuration : Int := -(2 ^ 63)

/-- Largest `time.Duration`, the largest int64. -/
def maxDuration : Int := 2 ^ 63 - 1

/-- The method `Time.Sub`: the duration `t - u`, saturating at the smallest and
largest duration. -/
def timeSub (t u : Time) : Int :=
  let d := t - u
  if d < minDuration then minDuration
  else if maxDuration < d then maxDuration
  else d

/-- The predicate `unicode.IsSpace`. -/
def isSpace (c : Char) : Bool :=
  let n := c.toNat
  (9 ≤ n && n ≤ 13) || n == 0x20 || n == 0x85 || n == 0xA0 || n == 0x1680 ||
  (0x2000 ≤ n && n ≤ 0x200A) || n == 0x2028 || n == 0x2029 || n == 0x202F ||
  n == 0x205F || n == 0x3000

/-- The function `strings.TrimSpace`: leading and trailing white space removed. -/
def trimSpace (s : String) : String :=
  String.mk (((s.data.dropWhile isSpace).reverse.dropWhile isSpace).reverse)

/-! ## Data model -/

/-- Single clock-in/clock-out session. -/
structure Session (F : Type) where
  ClockInAt : Time
  ClockOutAt : Time
  Wage : F
deriving DecidableEq, Repr

/-- The struct `Employee`. -/
structure Employee (F : Type) where
  ID : Int
  FirstName : String
  MiddleName : String
  LastName : String
  HourlyRate : F
  CurrentClockIn : Option Time
  Sessions : List (Session F)
deriving DecidableEq, Repr

/-- Session history list item. -/
structure SessionItem (F : Type) where
  Session : Session F
  SessionNum : Int
deriving DecidableEq, Repr

/-- A value of the interface `list.Item`: a `*Employee`, a `*SessionItem`, or nil. -/
inductive Item (F : Type) where
  | employee (e : Employee F)
  | session (s : SessionItem F)
  | nil
deriving DecidableEq, Repr

/-- The type `mode`. -/
inductive mode where
  | modeList
  | modeAdd
  | modeViewSessions
  | modeConfirmDelete
deriving DecidableEq, Repr

/-- The type `addField`. -/
inductive addField where
  | fieldFirstName
  | fieldMiddleName
  | fieldLastName
  | fieldRate
deriving DecidableEq, Repr

open mode addField

/-- The widgets of the bubbles library: `L` is `list.Model`, `T` is
`textinput.Model`. A key message is passed as its `String()`. -/
structure Toolkit (F L T : Type) where
  /-- A list built by `list.New` with no items and configured as in `newModel`, given its title. -/
  listNew : String → L
  /-- The method `Index` of the list. -/
  listIndex : L → Int
  /-- The method `SetItems` of the list. -/
  listSetItems : L → List (Item F) → L
  /-- The method `Update` of the list, on a key message. -/
  listUpdate : L → String → L
  /-- An input built by `textinput.New`, given its placeholder; the prompt is always the same. -/
  inputNew : String → T
  /-- The method `Value` of the input. -/
  inputValue : T → String
  /-- The method `SetValue` of the input. -/
  inputSetValue : T → String → T
  /-- The method `Focus` of the input. -/
  inputFocus : T → T
  /-- The method `Blur` of the input. -/
  inputBlur : T → T
  /-- The method `Update` of the input, on a key message. -/
  inputUpdate : T → String → T

/-- What draws the screen: the four lipgloss styles of `main.go`, each the `Render`
of a text, and the `View` of the two kinds of widget. -/
structure Renderer (L T : Type) where
  /-- The `Render` of `titleStyle`. -/
  titleStyle : String → String
  /-- The `Render` of `helpStyle`. -/
  helpStyle : String → String
  /-- The `Render` of `errStyle`. -/
  errStyle : String → String
  /-- The `Render` of `confirmStyle`. -/
  confirmStyle : String → String
  /-- The method `View` of the list. -/
  listView : L → String
  /-- The method `View` of the input. -/
  inputView : T → String

/-- The struct `model`. The field `employees` holds `*Employee` items only. -/
structure model (F L T : Type) where
  employees : List (Employee F)
  nextID : Int
  list : L
  sessionList : L
  mode : mode
  field : addField
  firstName : T
  middleName : T
  lastName : T
  rate : T
  selectedEmpIdx : Int
  pendingDeleteIdx : Int
  lastWageMessage : String
  err : Option String

/-- A message received by `Update`: a `tea.KeyMsg`, given by its `String()`, or
any other message. -/
inductive Msg where
  | key (s : String)
  | other
deriving DecidableEq, Repr

/-- The command returned by `Update`: nil (also an empty batch), `tea.Quit`, or
what a widget returned. -/
inductive Cmd where
  | none
  | quit
  | widget
deriving DecidableEq, Repr

/-- The constant `STARTING_EMPLOYEE_ID`. -/
def STARTING_EMPLOYEE_ID : Int := 1

section Operations

variable {F L T : Type} [Float64 F] (tk : Toolkit F L T)

/-- The method `Employee.TotalWage`: the loop over the sessions, `total` being the
running total. -/
def TotalWage.loop : List (Session F) → F → F
  | [], total => total
  | session :: rest, total => TotalWage.loop rest (Float64.add total session.Wage)

/-- The method `Employee.TotalWage`. -/
def TotalWage (e : Employee F) : F :=
  TotalWage.loop e.Sessions Float64.zero

/-- The name built in `clockOutSelected` and in `View`: first, optional middle, last. -/
def fullName (e : Employee F) : String :=
  let name := e.FirstName
  let name := if e.MiddleName ≠ "" then name ++ " " ++ e.MiddleName else name
  name ++ " " ++ e.LastName

/-- The function `newModel`. -/
def newModel : model F L T :=
  { employees := []
    nextID := STARTING_EMPLOYEE_ID
    list := tk.listNew "Employees"
    sessionList := tk.listNew "Session History"
    mode := modeList
    field := fieldFirstName
    firstName := tk.inputFocus (tk.inputNew "First name")
    middleName := tk.inputNew "Middle name"
    lastName := tk.inputNew "Last name"
    rate := tk.inputNew "Hourly rate (e.g. 25.50)"
    selectedEmpIdx := -1
    pendingDeleteIdx := -1
    lastWageMessage := ""
    err := Option.none }

/-- The method `syncList`. -/
def syncList (m : model F L T) : model F L T :=
  { m with list := tk.listSetItems m.list (m.employees.map Item.employee) }

/-- The method `addEmployeeFromInputs`: the new state and the returned error. -/
def addEmployeeFromInputs (m : model F L T) : model F L T × Option String :=
  let firstName := trimSpace (tk.inputValue m.firstName)
  let middleName := trimSpace (tk.inputValue m.middleName)
  let lastName := trimSpace (tk.inputValue m.lastName)
  let value := trimSpace (tk.inputValue m.rate)
  if firstName = "" ∨ lastName = "" ∨ value = "" then
    let errStr := ""
    let errStr := if firstName = "" then errStr ++ "\nMissing first name" else errStr
    let errStr := if lastName = "" then errStr ++ "\nMissing last name" else errStr
    let errStr := if value = "" then errStr ++ "\nMissing hourly rate" else errStr
    (m, some (String.mk (errStr.data.drop 1)))
  else
    match (Float64.parseFloat value : Option F) with
    | Option.none => (m, some "Hourly rate must be a numeric value.")
    | some rate =>
      let e : Employee F :=
        { ID := m.nextID
          FirstName := firstName
          MiddleName := middleName
          LastName := lastName
          HourlyRate := rate
          CurrentClockIn := Option.none
          Sessions := [] }
      let m := { m with nextID := wrapInt (m.nextID + 1) }
      let m := { m with employees := m.employees ++ [e] }
      (syncList tk m, Option.none)

/-- The method `getSelectedIndex`. -/
def getSelectedIndex (m : model F L T) : Int :=
  if m.employees.length = 0 then -1
  else
    let idx := tk.listIndex m.list
    if idx < 0 ∨ idx ≥ m.employees.length then -1 else idx

/-- The method `deleteByIndex`. -/
def deleteByIndex (m : model F L T) (idx : Int) : model F L T :=
  if idx < 0 ∨ idx ≥ m.employees.length then m
  else
    syncList tk
      { m with employees := m.employees.take idx.toNat ++ m.employees.drop (idx.toNat + 1) }

/-- The method `clockInSelected`, `now` being the value of `time.Now()`. The index
returned by `getSelectedIndex` is within the roster when it is not negative, so
the branch of a missing employee is never taken. -/
def clockInSelected (now : Time) (m : model F L T) : model F L T :=
  let idx := getSelectedIndex tk m
  if idx < 0 then m
  else
    match m.employees[idx.toNat]? with
    | Option.none => m
    | some e =>
      if e.CurrentClockIn ≠ Option.none then
        { m with err := some "Employee is already clocked in." }
      else
        syncList tk
          { m with employees := m.employees.set idx.toNat { e with CurrentClockIn := some now } }

/-- The method `clockOutSelected`, `now` being the value of `time.Now()`. -/
def clockOutSelected (now : Time) (m : model F L T) : model F L T :=
  let idx := getSelectedIndex tk m
  if idx < 0 then m
  else
    match m.employees[idx.toNat]? with
    | Option.none => m
    | some e =>
      match e.CurrentClockIn with
      | Option.none => { m with err := some "Employee is not clocked in yet." }
      | some clockIn =>
        let hours : F := Float64.hours (timeSub now clockIn)
        let wage := Float64.mul hours e.HourlyRate
        let session : Session F := { ClockInAt := clockIn, ClockOutAt := now, Wage := wage }
        let e := { e with Sessions := e.Sessions ++ [session] }
        let e := { e with CurrentClockIn := Option.none }
        let name := fullName e
        syncList tk
          { m with
            employees := m.employees.set idx.toNat e
            lastWageMessage := name ++ " clocked out â€” Session wage: $" ++ Float64.fmt2 wage }

/-- The loop of `viewSessions`: the session at position `i` goes to position
`n - 1 - i` of `items` with number `n - i`, where `n` is `len(e.Sessions)`. -/
def viewSessions.loop (n : Int) :
    List (Session F) → Int → List (Item F) → List (Item F)
  | [], _, items => items
  | session :: rest, i, items =>
    viewSessions.loop n rest (i + 1)
      (items.set (n - 1 - i).toNat (Item.session { Session := session, SessionNum := n - i }))

/-- The method `viewSessions`. -/
def viewSessions (m : model F L T) : model F L T :=
  let idx := getSelectedIndex tk m
  if idx < 0 then { m with err := some "No employee selected." }
  else
    match m.employees[idx.toNat]? with
    | Option.none => m
    | some e =>
      let m := { m with selectedEmpIdx := idx }
      let items : List (Item F) := List.replicate e.Sessions.length Item.nil
      let items := viewSessions.loop (e.Sessions.length : Int) e.Sessions 0 items
      let m := { m with sessionList := tk.listSetItems m.sessionList items }
      { m with mode := modeViewSessions }

/-- The method `Update`, `now` being the value a call of `time.Now()` returns
while the message is processed. -/
def Update (now : Time) (m : model F L T) (msg : Msg) : model F L T × Cmd :=
  match msg with
  | Msg.other => (m, Cmd.none)
  | Msg.key k =>
    match m.mode with
    | modeList =>
      if k = "ctrl+c" ∨ k = "q" then (m, Cmd.quit)
      else if k = "a" then
        ({ m with
            lastWageMessage := ""
            mode := modeAdd
            field := fieldFirstName
            firstName := tk.inputFocus (tk.inputSetValue m.firstName "")
            middleName := tk.inputBlur (tk.inputSetValue m.middleName "")
            lastName := tk.inputBlur (tk.inputSetValue m.lastName "")
            rate := tk.inputBlur (tk.inputSetValue m.rate "") }, Cmd.none)
      else if k = "d" then
        let idx := getSelectedIndex tk m
        if idx ≥ 0 then ({ m with pendingDeleteIdx := idx, mode := modeConfirmDelete }, Cmd.none)
        else (m, Cmd.none)
      else if k = "i" then
        let m := clockInSelected tk now m
        ({ m with lastWageMessage := "" }, Cmd.none)
      else if k = "o" then (clockOutSelected tk now m, Cmd.none)
      else if k = "v" then (viewSessions tk m, Cmd.none)
      else ({ m with list := tk.listUpdate m.list k }, Cmd.widget)
    | modeViewSessions =>
      if k = "esc" ∨ k = "q" then ({ m with mode := modeList }, Cmd.none)
      else ({ m with sessionList := tk.listUpdate m.sessionList k }, Cmd.widget)
    | modeConfirmDelete =>
      if k = "y" ∨ k = "enter" then
        let m := deleteByIndex tk m m.pendingDeleteIdx
        ({ m with pendingDeleteIdx := -1, lastWageMessage := "", mode := modeList }, Cmd.none)
      else if k = "n" ∨ k = "esc" then
        ({ m with pendingDeleteIdx := -1, mode := modeList }, Cmd.none)
      else (m, Cmd.none)
    | modeAdd =>
      if k = "esc" then ({ m with mode := modeList }, Cmd.none)
      else if k = "enter" ∨ k = "tab" then
        match m.field with
        | fieldFirstName =>
          ({ m with
              field := fieldMiddleName
              firstName := tk.inputBlur m.firstName
              middleName := tk.inputFocus m.middleName }, Cmd.none)
        | fieldMiddleName =>
          ({ m with
              field := fieldLastName
              middleName := tk.inputBlur m.middleName
              lastName := tk.inputFocus m.lastName }, Cmd.none)
        | fieldLastName =>
          ({ m with
              field := fieldRate
              lastName := tk.inputBlur m.lastName
              rate := tk.inputFocus m.rate }, Cmd.none)
        | fieldRate =>
          match addEmployeeFromInputs tk m with
          | (m, some err) => ({ m with err := some err }, Cmd.none)
          | (m, Option.none) => ({ m with mode := modeList, err := Option.none }, Cmd.none)
      else if k = "shift+tab" then
        match m.field with
        | fieldRate =>
          ({ m with
              field := fieldLastName
              rate := tk.inputBlur m.rate
              lastName := tk.inputFocus m.lastName }, Cmd.none)
        | fieldLastName =>
          ({ m with
              field := fieldMiddleName
              lastName := tk.inputBlur m.lastName
              middleName := tk.inputFocus m.middleName }, Cmd.none)
        | fieldMiddleName =>
          ({ m with
              field := fieldFirstName
              middleName := tk.inputBlur m.middleName
              firstName := tk.inputFocus m.firstName }, Cmd.none)
        | fieldFirstName => (m, Cmd.none)
      else
        match m.field with
        | fieldFirstName => ({ m with firstName := tk.inputUpdate m.firstName k }, Cmd.widget)
        | fieldMiddleName => ({ m with middleName := tk.inputUpdate m.middleName k }, Cmd.widget)
        | fieldLastName => ({ m with lastName := tk.inputUpdate m.lastName k }, Cmd.widget)
        | fieldRate => ({ m with rate := tk.inputUpdate m.rate k }, Cmd.widget)

/-- The method `Employee.Title`. -/
def Title (e : Employee F) : String :=
  let status := if e.CurrentClockIn ≠ Option.none then "clocked in" else "clocked out"
  let name := e.FirstName
  let name := if e.MiddleName ≠ "" then name ++ " " ++ e.MiddleName else name
  let name := name ++ " " ++ e.LastName
  name ++ " (" ++ status ++ ")"

/-- The items `viewSessions` hands to the session list for the sessions of the
selected employee: `make` followed by the loop. -/
def viewSessions.items (sessions : List (Session F)) : List (Item F) :=
  viewSessions.loop (sessions.length : Int) sessions 0
    (List.replicate sessions.length Item.nil)

/-- The method `View`: the text drawn and the state left by the deferred function,
which runs once the text is computed. The verb `%d` is `toString`. -/
def View (rd : Renderer L T) (m : model F L T) : String × model F L T :=
  let out : String :=
    match m.mode with
    | modeList =>
      let header := rd.titleStyle "Employee Management System" ++ "\n\n"
      let body := rd.listView m.list
      let help := rd.helpStyle
        "\n[a] add  [d] delete  [i] clock in  [o] clock out  [v] view sessions  [q] quit"
      let help :=
        match m.err with
        | some err => help ++ "\n" ++ rd.errStyle err
        | Option.none => help
      let help :=
        if m.lastWageMessage ≠ "" then help ++ "\n" ++ rd.titleStyle m.lastWageMessage else help
      header ++ body ++ help ++ "\n"
    | modeAdd =>
      let builder := rd.titleStyle "Add Employee" ++ "\n\n"
      let builder := builder ++ ("First name*:\n" ++ rd.inputView m.firstName ++ "\n\n")
      let builder := builder ++ ("Middle name:\n" ++ rd.inputView m.middleName ++ "\n\n")
      let builder := builder ++ ("Last name*:\n" ++ rd.inputView m.lastName ++ "\n\n")
      let builder := builder ++ ("Hourly rate*:\n" ++ rd.inputView m.rate ++ "\n\n")
      let builder := builder ++ ("* = required field" ++ "\n\n")
      let builder := builder ++
        rd.helpStyle "[enter/tab] next [shift+tab] previous [esc] cancel"
      let builder :=
        match m.err with
        | some err => builder ++ ("\n" ++ rd.errStyle err)
        | Option.none => builder
      builder ++ "\n"
    | modeViewSessions =>
      let builder := ""
      let builder :=
        if m.selectedEmpIdx ≥ 0 ∧ m.selectedEmpIdx < m.employees.length then
          match m.employees[m.selectedEmpIdx.toNat]? with
          | some e =>
            let builder := builder ++ (rd.titleStyle ("Session History: " ++ fullName e) ++ "\n")
            builder ++
              ("ID: " ++ toString e.ID ++ " | Rate: $" ++ Float64.fmt2 e.HourlyRate ++
                "/hr | Total Sessions: " ++ toString e.Sessions.length ++
                " | Total Wage: $" ++ Float64.fmt2 (TotalWage e) ++ "\n\n")
          | Option.none => builder
        else builder
      let builder := builder ++ rd.listView m.sessionList
      let builder := builder ++ ("\n" ++ rd.helpStyle "[esc/q] back")
      builder ++ "\n"
    | modeConfirmDelete =>
      let name :=
        if m.pendingDeleteIdx ≥ 0 ∧ m.pendingDeleteIdx < m.employees.length then
          match m.employees[m.pendingDeleteIdx.toNat]? with
          | some e => fullName e
          | Option.none => ""
        else ""
      let name := if name = "" then "selected employee" else name
      let prompt := "Delete " ++ name ++ "? (y/n)"
      rd.confirmStyle "Confirm Delete" ++ "\n\n" ++ prompt ++ "\n\n" ++
        rd.helpStyle "[y/enter] yes  [n/esc] no" ++ "\n"
  (out, { m with err := Option.none })

end Operations

/-! ## Notions used by the statements -/

section Notions

/-- The state after the messages `msgs`, each given with the time at which it is
processed, starting from the state `m`. -/
def run {F L T : Type} [Float64 F] (tk : Toolkit F L T) (m : model F L T) :
    List (Time × Msg) → model F L T
  | [] => m
  | (now, msg) :: rest => run tk (Update tk now m msg).1 rest

/-- Whether `nextID` is below the largest `int` in the state each message of the
run starts from, so that no `nextID++` of the run wraps around. -/
def staysBelowMax {F L T : Type} [Float64 F] (tk : Toolkit F L T) (m : model F L T) :
    List (Time × Msg) → Bool
  | [] => true
  | (now, msg) :: rest =>
    decide (m.nextID < maxInt) && staysBelowMax tk (Update tk now m msg).1 rest

/-- The messages `keys` sent `n` times over. -/
def repeatKeys : Nat → List (Time × Msg) → List (Time × Msg)
  | 0, _ => []
  | n + 1, keys => keys ++ repeatKeys n keys

/-- The messages of a sequence of clock-in/clock-out cycles, each cycle given by
its clock-in time and its clock-out time: the key i then the key o. -/
def cycleKeys : List (Time × Time) → List (Time × Msg)
  | [] => []
  | (tIn, tOut) :: rest => (tIn, Msg.key "i") :: (tOut, Msg.key "o") :: cycleKeys rest

/-- The wage `clockOutSelected` computes for a cycle at the given hourly rate. -/
def cycleWage {F : Type} [Float64 F] (rate : F) (c : Time × Time) : F :=
  Float64.mul (Float64.hours (timeSub c.2 c.1)) rate

/-- The session `clockOutSelected` records for a cycle at the given hourly rate. -/
def cycleSession {F : Type} [Float64 F] (rate : F) (c : Time × Time) : Session F :=
  { ClockInAt := c.1, ClockOutAt := c.2, Wage := cycleWage rate c }

/-- The IDs of the employees of the roster, in roster order. -/
def rosterIDs {F L T : Type} (m : model F L T) : List Int :=
  m.employees.map Employee.ID

/-- The characters of a string in lower case. -/
def lowerChars (s : String) : List Char :=
  s.data.map Char.toLower

/-- A message mentions a field when the name of the field occurs in it, letter
case apart. -/
def mentions (msg field : String) : Prop :=
  lowerChars field <:+: lowerChars msg

instance (msg field : String) : Decidable (mentions msg field) :=
  inferInstanceAs (Decidable (lowerChars field <:+: lowerChars msg))

/-- The full display name as the specification words it: first and last name
separated by a blank, with the middle name and one more blank in between when
the middle name is not empty. -/
def displayName {F : Type} (e : Employee F) : String :=
  if e.MiddleName = "" then e.FirstName ++ " " ++ e.LastName
  else e.FirstName ++ " " ++ e.MiddleName ++ " " ++ e.LastName

/-- Every employee of the roster `after` either comes from an employee of the roster
`before` with the same ID, whose sessions it starts with, or carries the ID
`nextID`. -/
def sessionsKept {F : Type} (before : List (Employee F)) (nextID : Int)
    (after : List (Employee F)) : Prop :=
  ∀ e2 ∈ after,
    (∃ e ∈ before, e.ID = e2.ID ∧ e.Sessions <+: e2.Sessions) ∨ e2.ID = nextID

/-- The help line of the list screen, as `View` writes it. -/
def listHelp : String :=
  "\n[a] add  [d] delete  [i] clock in  [o] clock out  [v] view sessions  [q] quit"

/-- How one message changes the roster, position by position: either the roster
keeps its length and at every position the employee keeps its ID and has
sessions that begin with its former sessions; or one position is removed and
the other employees are as they were; or one employee with no session is
appended and the others are as they were. -/
def rosterStep {F : Type} (before after : List (Employee F)) : Prop :=
  (after.length = before.length ∧
    ∀ (j : Nat) (e e2 : Employee F), before[j]? = some e → after[j]? = some e2 →
      e2.ID = e.ID ∧ e.Sessions <+: e2.Sessions) ∨
  (∃ i : Nat, i < before.length ∧ after = before.eraseIdx i) ∨
  (∃ e : Employee F, e.Sessions = [] ∧ after = before ++ [e])

/-- The mode invariant: in ConfirmDelete mode the pending delete index is an index
of the roster, and in ViewSessions mode so is the selected-employee index. -/
def modeInv {F L T : Type} (m : model F L T) : Prop :=
  (m.mode = modeConfirmDelete →
    0 ≤ m.pendingDeleteIdx ∧ m.pendingDeleteIdx < m.employees.length) ∧
  (m.mode = modeViewSessions →
    0 ≤ m.selectedEmpIdx ∧ m.selectedEmpIdx < m.employees.length)

/-- The roster invariant: `nextID` is at least 1 and the IDs are pairwise
distinct, at least 1 and below `nextID`. -/
def rosterInv {F L T : Type} (m : model F L T) : Prop :=
  1 ≤ m.nextID ∧ (rosterIDs m).Nodup ∧ ∀ id ∈ rosterIDs m, 1 ≤ id ∧ id < m.nextID

end Notions

/-! ## A reference instance

Exact rational arithmetic and minimal widgets, on which the definitions above
can be evaluated.  On the values used below (small integers, whole and
half hours) float64 arithmetic is exact and agrees with it. -/

section Reference

/-- The value of a string of decimal digits read after the value `acc`; `none`
when a character is not a digit. -/
def parseDigits : List Char → Nat → Option Nat
  | [], acc => some acc
  | c :: cs, acc =>
    if c.isDigit then parseDigits cs (acc * 10 + (c.toNat - 48)) else Option.none

/-- An unsigned decimal literal `ddd`, `ddd.ddd`, `ddd.` or `.ddd` as a rational. -/
def parseUnsigned (cs : List Char) : Option ℚ :=
  let ip := cs.takeWhile Char.isDigit
  let rest := cs.dropWhile Char.isDigit
  let fp : Option (List Char) :=
    match rest with
    | [] => some []
    | '.' :: r => some r
    | _ => Option.none
  match fp with
  | Option.none => Option.none
  | some fp =>
    if ip.length + fp.length = 0 then Option.none
    else
      match parseDigits ip 0, parseDigits fp 0 with
      | some a, some b => some ((a : ℚ) + (b : ℚ) / (10 ^ fp.length : ℕ))
      | _, _ => Option.none

/-- A signed plain decimal literal as a rational: what `strconv.ParseFloat`
returns on such a literal when its value is a float64. Exponents, hexadecimal
literals, infinities and NaN are not read. -/
def parseDecimal (s : String) : Option ℚ :=
  match s.data with
  | '-' :: r => (parseUnsigned r).map (fun q => -q)
  | '+' :: r => parseUnsigned r
  | cs => parseUnsigned cs

/-- One hour, `time.Hour`, in nanoseconds. -/
def Hour : Int := 3600000000000

/-- The method `Duration.Hours` in exact arithmetic: whole hours plus the fraction
of the remaining nanoseconds. -/
def hoursExact (d : Int) : ℚ :=
  let hour := d.tdiv Hour
  let nsec := d.tmod Hour
  (hour : ℚ) + (nsec : ℚ) / (60 * 60 * 1000000000)

/-- A rational written with two decimals, rounded to the nearest, ties to even. -/
def fmt2Exact (q : ℚ) : String :=
  let x := |q| * 100
  let f := x.floor.toNat
  let r := x - f
  let n := if r < 1 / 2 then f else if 1 / 2 < r then f + 1 else if f % 2 = 0 then f else f + 1
  let frac := n % 100
  (if q < 0 then "-" else "") ++ toString (n / 100) ++ "." ++
    (if frac < 10 then "0" else "") ++ toString frac

instance : Float64 ℚ where
  zero := 0
  add := fun a b => a + b
  mul := fun a b => a * b
  lt := fun a b => decide (a < b)
  hours := hoursExact
  parseFloat := parseDecimal
  fmt2 := fmt2Exact

/-- Minimal widgets: a list is its cursor index, moved by the arrow keys and
never touched by `SetItems`; an input is its text, to which a key of one
character is appended. -/
def refToolkit : Toolkit ℚ Int String where
  listNew := fun _ => 0
  listIndex := fun l => l
  listSetItems := fun l _ => l
  listUpdate := fun l k => if k = "down" then l + 1 else if k = "up" then l - 1 else l
  inputNew := fun _ => ""
  inputValue := fun t => t
  inputSetValue := fun _ s => s
  inputFocus := fun t => t
  inputBlur := fun t => t
  inputUpdate := fun t k => if k.length = 1 then t ++ k else t

/-- A renderer with no styling: a list is drawn as its index, an input as its
prompt and text. -/
def refRenderer : Renderer Int String where
  titleStyle := fun s => s
  helpStyle := fun s => s
  errStyle := fun s => s
  confirmStyle := fun s => s
  listView := fun l => toString l
  inputView := fun t => "> " ++ t

/-- The key messages typing the characters of `s`, all at time `now`. -/
def typeKeys (now : Time) (s : String) : List (Time × Msg) :=
  s.data.map (fun c => (now, Msg.key (String.mk [c])))

end Reference

/-! ## Concrete inputs -/

section Inputs

/-- The keys opening the form and filling it with a first name, a last name and a
rate, the focus ending on the rate field. -/
def fillForm (first last rate : String) : List (Time × Msg) :=
  [(0, Msg.key "a")] ++ typeKeys 0 first ++ [(0, Msg.key "tab"), (0, Msg.key "tab")] ++
    typeKeys 0 last ++ [(0, Msg.key "tab")] ++ typeKeys 0 rate

/-- The form filled with Ana Lee at rate 20, not yet submitted. -/
def formAnaLee : model ℚ Int String :=
  run refToolkit (newModel refToolkit) (fillForm "Ana" "Lee" "20")

/-- Ana Lee added at rate 20 and clocked in at 09:00. -/
def anaClockedIn : model ℚ Int String :=
  run refToolkit (newModel refToolkit)
    (fillForm "Ana" "Lee" "20" ++ [(0, Msg.key "enter"), (9 * Hour, Msg.key "i")])

/-- Ana Lee added at rate 20, clocked out and selected. -/
def anaAdded : model ℚ Int String :=
  run refToolkit (newModel refToolkit) (fillForm "Ana" "Lee" "20" ++ [(0, Msg.key "enter")])

/-- The form filled with Ana Lee at rate -5, not yet submitted. -/
def formNegativeRate : model ℚ Int String :=
  run refToolkit (newModel refToolkit) (fillForm "Ana" "Lee" "-5")

/-- Ana Lee added and the delete key pressed: the confirmation is pending. -/
def anaConfirmDelete : model ℚ Int String :=
  run refToolkit (newModel refToolkit)
    (fillForm "Ana" "Lee" "20" ++ [(0, Msg.key "enter"), (0, Msg.key "d")])

/-- Ana Lee added and her sessions opened with the key v. -/
def anaViewed : model ℚ Int String :=
  run refToolkit (newModel refToolkit)
    (fillForm "Ana" "Lee" "20" ++ [(0, Msg.key "enter"), (0, Msg.key "v")])

/-- Ana Lee added, with one session from 09:00 to 17:00, clocked in again at
18:00. -/
def anaSecondShift : model ℚ Int String :=
  run refToolkit (newModel refToolkit)
    (fillForm "Ana" "Lee" "20" ++
      [(0, Msg.key "enter"), (9 * Hour, Msg.key "i"), (17 * Hour, Msg.key "o"),
       (18 * Hour, Msg.key "i")])

/-- Ana Lee as she is in `anaSecondShift`: one session, clocked in at 18:00. -/
def anaOneSession : Employee ℚ :=
  { ID := 1, FirstName := "Ana", MiddleName := "", LastName := "Lee", HourlyRate := 20,
    CurrentClockIn := some (18 * Hour),
    Sessions := [{ ClockInAt := 9 * Hour, ClockOutAt := 17 * Hour, Wage := 160 }] }

/-- Ana Lee after she clocks out of `anaSecondShift` at 19:00: two sessions. -/
def anaTwoSessions : Employee ℚ :=
  { ID := 1, FirstName := "Ana", MiddleName := "", LastName := "Lee", HourlyRate := 20,
    CurrentClockIn := Option.none,
    Sessions := [{ ClockInAt := 9 * Hour, ClockOutAt := 17 * Hour, Wage := 160 },
                 { ClockInAt := 18 * Hour, ClockOutAt := 19 * Hour, Wage := 20 }] }

/-- Three sessions, in the order they were completed. -/
def threeSessions : List (Session ℚ) :=
  [{ ClockInAt := 9 * Hour, ClockOutAt := 10 * Hour, Wage := 20 },
   { ClockInAt := 11 * Hour, ClockOutAt := 12 * Hour, Wage := 20 },
   { ClockInAt := 13 * Hour, ClockOutAt := 14 * Hour, Wage := 20 }]

/-- Ana Lee added, selected, with the three sessions of `threeSessions`. -/
def anaThreeSessions : model ℚ Int String :=
  run refToolkit (newModel refToolkit)
    (fillForm "Ana" "Lee" "20" ++ [(0, Msg.key "enter")] ++
      cycleKeys [(9 * Hour, 10 * Hour), (11 * Hour, 12 * Hour), (13 * Hour, 14 * Hour)])

/-- Ana Lee added, clocked in at 09:00 and clocked out at 17:00, not yet drawn. -/
def anaClockedOut : model ℚ Int String :=
  run refToolkit (newModel refToolkit)
    (fillForm "Ana" "Lee" "20" ++
      [(0, Msg.key "enter"), (9 * Hour, Msg.key "i"), (17 * Hour, Msg.key "o")])

/-- The form filled with Ana Lee at rate 20, with `nextID` at the largest `int`. -/
def formAtMaxInt : model ℚ Int String :=
  { formAnaLee with nextID := 9223372036854775807 }

/-- The keys adding the employee A B at rate 1 and deleting it again. -/
def addDeleteKeys : List (Time × Msg) :=
  fillForm "A" "B" "1" ++ [(0, Msg.key "enter"), (0, Msg.key "d"), (0, Msg.key "y")]

/-- The state `addDeleteKeys` leaves: an empty roster, the list screen, the form
still holding A, B and 1, and the given `nextID`. -/
def idleState (nextID : Int) : model ℚ Int String :=
  { employees := []
    nextID := nextID
    list := 0
    sessionList := 0
    mode := modeList
    field := fieldRate
    firstName := "A"
    middleName := ""
    lastName := "B"
    rate := "1"
    selectedEmpIdx := -1
    pendingDeleteIdx := -1
    lastWageMessage := ""
    err := Option.none }

/-- The open form over an empty roster, with the given `nextID`, focus and texts. -/
def formState (nextID : Int) (field : addField) (first middle last rate : String) :
    model ℚ Int String :=
  { employees := []
    nextID := nextID
    list := 0
    sessionList := 0
    mode := modeAdd
    field := field
    firstName := first
    middleName := middle
    lastName := last
    rate := rate
    selectedEmpIdx := -1
    pendingDeleteIdx := -1
    lastWageMessage := ""
    err := Option.none }

/-- The employee A B at rate 1 with the given ID. -/
def employeeAB (id : Int) : Employee ℚ :=
  { ID := id, FirstName := "A", MiddleName := "", LastName := "B", HourlyRate := 1,
    CurrentClockIn := Option.none, Sessions := [] }

/-- The form with no first name, last name Lee and the rate text abc. -/
def formNoFirstBadRate : model ℚ Int String :=
  run refToolkit (newModel refToolkit) (fillForm "" "Lee" "abc")

/-- The form with no first name, last name Lee and no rate. -/
def formNoFirstNoRate : model ℚ Int String :=
  run refToolkit (newModel refToolkit) (fillForm "" "Lee" "")

end Inputs

/-! ## Theorems -/

section Theorems

variable {F L T : Type} (tk : Toolkit F L T)

/-- On a form whose three required fields are not blank and whose rate parses,
`addEmployeeFromInputs` appends the new employee, advances `nextID` and
refreshes the list. -/
theorem addEmployeeFromInputs_of_parse [Float64 F] (m : model F L T) (rate : F)
    (hFirst : trimSpace (tk.inputValue m.firstName) ≠ "")
    (hLast : trimSpace (tk.inputValue m.lastName) ≠ "")
    (hRate : trimSpace (tk.inputValue m.rate) ≠ "")
    (hParse : Float64.parseFloat (trimSpace (tk.inputValue m.rate)) = some rate) :
    addEmployeeFromInputs tk m =
      (syncList tk
        { m with
          nextID := wrapInt (m.nextID + 1)
          employees := m.employees ++
            [{ ID := m.nextID
               FirstName := trimSpace (tk.inputValue m.firstName)
               MiddleName := trimSpace (tk.inputValue m.middleName)
               LastName := trimSpace (tk.inputValue m.lastName)
               HourlyRate := rate
               CurrentClockIn := Option.none
               Sessions := [] }] }, Option.none) := by
  simp [addEmployeeFromInputs, hFirst, hLast, hRate, hParse]

/-- An increment within the range of `int` does not wrap. -/
theorem wrapInt_succ (x : Int) (hMin : minInt ≤ x) (hMax : x < maxInt) :
    wrapInt (x + 1) = x + 1 := by
  unfold minInt at hMin
  unfold maxInt at hMax
  unfold wrapInt
  omega

/-- C1, as the code has it: on a form whose trimmed first name, last name and rate
text are not empty and whose rate text parses, `addEmployeeFromInputs` returns no
error and the roster is the old roster followed by one employee with the old
`nextID` as ID, the trimmed names, the parsed rate, no active clock-in and no
sessions; `nextID` is incremented as an `int`: it grows by exactly 1 when it is
below the largest `int`, and at the largest `int` it becomes the smallest. -/
theorem addEmployeeFromInputs_valid [Float64 F] (m : model F L T) (rate : F)
    (hFirst : trimSpace (tk.inputValue m.firstName) ≠ "")
    (hLast : trimSpace (tk.inputValue m.lastName) ≠ "")
    (hRate : trimSpace (tk.inputValue m.rate) ≠ "")
    (hParse : Float64.parseFloat (trimSpace (tk.inputValue m.rate)) = some rate) :
    (addEmployeeFromInputs tk m).2 = Option.none ∧
    (minInt ≤ m.nextID → m.nextID < maxInt →
      (addEmployeeFromInputs tk m).1.nextID = m.nextID + 1) ∧
    (m.nextID = maxInt → (addEmployeeFromInputs tk m).1.nextID = minInt) ∧
    (addEmployeeFromInputs tk m).1.employees = m.employees ++
      [{ ID := m.nextID
         FirstName := trimSpace (tk.inputValue m.firstName)
         MiddleName := trimSpace (tk.inputValue m.middleName)
         LastName := trimSpace (tk.inputValue m.lastName)
         HourlyRate := rate
         CurrentClockIn := Option.none
         Sessions := [] }] := by
  rw [addEmployeeFromInputs_of_parse tk m rate hFirst hLast hRate hParse]
  refine ⟨rfl, fun hMin hMax => ?_, fun hEq => ?_, rfl⟩
  · exact wrapInt_succ m.nextID hMin hMax
  · show wrapInt (m.nextID + 1) = minInt
    rw [hEq]
    decide

/-- C1 amended, at the form filled with Ana Lee at rate 20 in the initial state:
the roster becomes the single employee Ana Lee with ID 1 and `nextID` becomes 2. -/
theorem addEmployeeFromInputs_valid_witness :
    (addEmployeeFromInputs refToolkit formAnaLee).2 = Option.none ∧
    (addEmployeeFromInputs refToolkit formAnaLee).1.nextID = 2 ∧
    (addEmployeeFromInputs refToolkit formAnaLee).1.employees =
      [{ ID := 1, FirstName := "Ana", MiddleName := "", LastName := "Lee", HourlyRate := 20,
         CurrentClockIn := Option.none, Sessions := [] }] :=
  have h := addEmployeeFromInputs_valid refToolkit formAnaLee 20 (by decide) (by decide)
    (by decide) (by with_unfolding_all rfl)
  ⟨h.1, h.2.1 (by decide) (by decide), h.2.2.2⟩

/-- C1 as stated fails: the form filled with Ana Lee at rate 20 is accepted in the
state whose `nextID` is the largest `int`, and `nextID` is then the smallest
`int`, not one more. -/
theorem nextID_wraps_at_maxInt :
    formAtMaxInt.nextID = 9223372036854775807 ∧
    (addEmployeeFromInputs refToolkit formAtMaxInt).2 = Option.none ∧
    (addEmployeeFromInputs refToolkit formAtMaxInt).1.nextID = -9223372036854775808 := by
  refine ⟨rfl, by decide, by decide⟩

/-! ### What each operation does to the roster and to `nextID` -/

@[simp] theorem syncList_employees (m : model F L T) :
    (syncList tk m).employees = m.employees := rfl

@[simp] theorem syncList_nextID (m : model F L T) :
    (syncList tk m).nextID = m.nextID := rfl

/-- Writing back an employee with the ID it already has keeps the list of IDs. -/
theorem map_ID_set (l : List (Employee F)) (i : Nat) (e e2 : Employee F)
    (hGet : l[i]? = some e) (hID : e2.ID = e.ID) :
    (l.set i e2).map Employee.ID = l.map Employee.ID := by
  induction l generalizing i with
  | nil => simp
  | cons a t ih =>
    cases i with
    | zero =>
      simp only [List.getElem?_cons_zero, Option.some.injEq] at hGet
      simp [hGet, hID]
    | succ j =>
      simp only [List.getElem?_cons_succ] at hGet
      simp [ih j hGet]

theorem getSelectedIndex_lt (m : model F L T) (h : 0 ≤ getSelectedIndex tk m) :
    (getSelectedIndex tk m).toNat < m.employees.length := by
  unfold getSelectedIndex at h ⊢
  dsimp only at h ⊢
  split_ifs at h ⊢ with h1 h2
  · omega
  · omega
  · simp only [ge_iff_le, not_or, not_le, not_lt] at h2
    omega

theorem clockInSelected_ids (now : Time) (m : model F L T) :
    rosterIDs (clockInSelected tk now m) = rosterIDs m ∧
    (clockInSelected tk now m).nextID = m.nextID := by
  unfold clockInSelected
  simp only
  split_ifs with h1
  · exact ⟨rfl, rfl⟩
  · split
    · exact ⟨rfl, rfl⟩
    · rename_i e hGet
      split_ifs
      · exact ⟨rfl, rfl⟩
      · exact ⟨map_ID_set _ _ e _ hGet rfl, rfl⟩

theorem clockOutSelected_ids [Float64 F] (now : Time) (m : model F L T) :
    rosterIDs (clockOutSelected tk now m) = rosterIDs m ∧
    (clockOutSelected tk now m).nextID = m.nextID := by
  unfold clockOutSelected
  simp only
  split_ifs with h1
  · exact ⟨rfl, rfl⟩
  · split
    · exact ⟨rfl, rfl⟩
    · rename_i e hGet
      split
      · exact ⟨rfl, rfl⟩
      · exact ⟨map_ID_set _ _ e _ hGet rfl, rfl⟩

theorem viewSessions_roster (m : model F L T) :
    (viewSessions tk m).employees = m.employees ∧ (viewSessions tk m).nextID = m.nextID := by
  unfold viewSessions
  simp only
  split_ifs with h1
  · exact ⟨rfl, rfl⟩
  · split <;> exact ⟨rfl, rfl⟩

theorem deleteByIndex_nextID (m : model F L T) (idx : Int) :
    (deleteByIndex tk m idx).nextID = m.nextID := by
  unfold deleteByIndex
  split_ifs <;> rfl

theorem deleteByIndex_sublist (m : model F L T) (idx : Int) :
    List.Sublist (deleteByIndex tk m idx).employees m.employees := by
  unfold deleteByIndex
  split_ifs
  · exact List.Sublist.refl _
  · simp only [syncList_employees]
    have h := List.take_append_drop idx.toNat m.employees
    conv => rhs; rw [← h]
    exact List.Sublist.append (List.Sublist.refl _) (List.drop_sublist_drop_left _ (Nat.le_succ _))

/-- The form either is rejected, leaving the state as it was, or adds one employee
under the ID `nextID`. -/
theorem addEmployeeFromInputs_cases [Float64 F] (m : model F L T) :
    ((addEmployeeFromInputs tk m).1 = m ∧ (addEmployeeFromInputs tk m).2 ≠ Option.none) ∨
    ((addEmployeeFromInputs tk m).2 = Option.none ∧
      (addEmployeeFromInputs tk m).1.nextID = wrapInt (m.nextID + 1) ∧
      ∃ e : Employee F, e.ID = m.nextID ∧
        (addEmployeeFromInputs tk m).1.employees = m.employees ++ [e]) := by
  unfold addEmployeeFromInputs
  dsimp only
  by_cases h1 : trimSpace (tk.inputValue m.firstName) = "" ∨
      trimSpace (tk.inputValue m.lastName) = "" ∨ trimSpace (tk.inputValue m.rate) = ""
  · rw [if_pos h1]
    left
    exact ⟨rfl, by simp⟩
  · rw [if_neg h1]
    split
    · left
      exact ⟨rfl, by simp⟩
    · right
      exact ⟨rfl, rfl, _, rfl, rfl⟩

/-- One message either keeps `nextID` and removes some employees from the list of
IDs (possibly none), or appends the ID `nextID` and increments `nextID`. -/
theorem Update_ids [Float64 F] (now : Time) (m : model F L T) (msg : Msg) :
    (List.Sublist (rosterIDs (Update tk now m msg).1) (rosterIDs m) ∧
      (Update tk now m msg).1.nextID = m.nextID) ∨
    (rosterIDs (Update tk now m msg).1 = rosterIDs m ++ [m.nextID] ∧
      (Update tk now m msg).1.nextID = wrapInt (m.nextID + 1)) := by
  have keep : ∀ m2 : model F L T, rosterIDs m2 = rosterIDs m → m2.nextID = m.nextID →
      (List.Sublist (rosterIDs m2) (rosterIDs m) ∧ m2.nextID = m.nextID) ∨
      (rosterIDs m2 = rosterIDs m ++ [m.nextID] ∧ m2.nextID = wrapInt (m.nextID + 1)) :=
    fun m2 h1 h2 => Or.inl ⟨h1 ▸ List.Sublist.refl _, h2⟩
  cases msg with
  | other => exact keep _ rfl rfl
  | key k =>
    unfold Update
    simp only
    split
    · -- modeList
      split_ifs
      · exact keep _ rfl rfl
      · exact keep _ rfl rfl
      · exact keep _ rfl rfl
      · exact keep _ rfl rfl
      · exact keep _ (clockInSelected_ids tk now m).1 (clockInSelected_ids tk now m).2
      · exact keep _ (clockOutSelected_ids tk now m).1 (clockOutSelected_ids tk now m).2
      · exact keep _ (by simp [rosterIDs, (viewSessions_roster tk m).1]) (viewSessions_roster tk m).2
      · exact keep _ rfl rfl
    · -- modeViewSessions
      split_ifs <;> exact keep _ rfl rfl
    · -- modeConfirmDelete
      split_ifs
      · left
        exact ⟨(deleteByIndex_sublist tk m m.pendingDeleteIdx).map _,
          deleteByIndex_nextID tk m m.pendingDeleteIdx⟩
      · exact keep _ rfl rfl
      · exact keep _ rfl rfl
    · -- modeAdd
      split_ifs
      · exact keep _ rfl rfl
      · split
        · exact keep _ rfl rfl
        · exact keep _ rfl rfl
        · exact keep _ rfl rfl
        · rcases addEmployeeFromInputs_cases tk m with ⟨h1, h2⟩ | ⟨h1, h2, e, h3, h4⟩
          · split
            · rename_i m2 err hEq
              rw [hEq] at h1
              simp only at h1
              subst h1
              exact keep _ rfl rfl
            · rename_i m2 hEq
              rw [hEq] at h2
              exact absurd rfl h2
          · split
            · rename_i m2 err hEq
              rw [hEq] at h1
              simp at h1
            · rename_i m2 hEq
              rw [hEq] at h2 h4
              simp only at h2 h4
              right
              exact ⟨by simp [rosterIDs, h4, h3], h2⟩
      · split <;> exact keep _ rfl rfl
      · split <;> exact keep _ rfl rfl

/-! ### The ID allocator over runs -/

theorem run_append [Float64 F] (m : model F L T) (evs more : List (Time × Msg)) :
    run tk m (evs ++ more) = run tk (run tk m evs) more := by
  induction evs generalizing m with
  | nil => rfl
  | cons ev rest ih =>
    obtain ⟨now, msg⟩ := ev
    simp only [List.cons_append, run]
    exact ih _

/-- Below the largest `int`, one message keeps `nextID` or adds 1 to it. -/
theorem Update_nextID_le [Float64 F] (now : Time) (m : model F L T) (msg : Msg)
    (hPos : 1 ≤ m.nextID) (hMax : m.nextID < maxInt) :
    m.nextID ≤ (Update tk now m msg).1.nextID := by
  have hW := wrapInt_succ m.nextID (by unfold minInt; omega) hMax
  rcases Update_ids tk now m msg with ⟨_, h⟩ | ⟨_, h⟩ <;> omega

theorem Update_rosterInv [Float64 F] (now : Time) (m : model F L T) (msg : Msg)
    (hInv : rosterInv m) (hMax : m.nextID < maxInt) : rosterInv (Update tk now m msg).1 := by
  obtain ⟨hPos, hNodup, hRange⟩ := hInv
  have hW := wrapInt_succ m.nextID (by unfold minInt; omega) hMax
  rcases Update_ids tk now m msg with ⟨hSub, hNext⟩ | ⟨hApp, hNext⟩
  · refine ⟨by omega, hNodup.sublist hSub, fun id hid => ?_⟩
    rw [hNext]
    exact hRange id (hSub.subset hid)
  · refine ⟨by omega, ?_, fun id hid => ?_⟩
    · rw [hApp]
      refine List.Nodup.append hNodup (List.nodup_singleton _) ?_
      intro id h1 h2
      rw [List.mem_singleton] at h2
      have := (hRange id h1).2
      omega
    · rw [hApp, List.mem_append, List.mem_singleton] at hid
      rw [hNext]
      rcases hid with hid | hid
      · have := hRange id hid
        omega
      · omega

theorem staysBelowMax_cons [Float64 F] (m : model F L T) (now : Time) (msg : Msg)
    (rest : List (Time × Msg)) (h : staysBelowMax tk m ((now, msg) :: rest) = true) :
    m.nextID < maxInt ∧ staysBelowMax tk (Update tk now m msg).1 rest = true := by
  unfold staysBelowMax at h
  simpa using h

theorem staysBelowMax_append [Float64 F] (m : model F L T) (evs more : List (Time × Msg))
    (h : staysBelowMax tk m (evs ++ more) = true) :
    staysBelowMax tk m evs = true ∧ staysBelowMax tk (run tk m evs) more = true := by
  induction evs generalizing m with
  | nil => exact ⟨rfl, h⟩
  | cons ev rest ih =>
    obtain ⟨now, msg⟩ := ev
    obtain ⟨h1, h2⟩ := staysBelowMax_cons tk m now msg (rest ++ more) h
    obtain ⟨h3, h4⟩ := ih _ h2
    refine ⟨?_, h4⟩
    unfold staysBelowMax
    simp [h1, h3]

theorem run_rosterInv [Float64 F] (m : model F L T) (evs : List (Time × Msg))
    (hInv : rosterInv m) (hBelow : staysBelowMax tk m evs = true) :
    rosterInv (run tk m evs) := by
  induction evs generalizing m with
  | nil => exact hInv
  | cons ev rest ih =>
    obtain ⟨now, msg⟩ := ev
    obtain ⟨h1, h2⟩ := staysBelowMax_cons tk m now msg rest hBelow
    exact ih _ (Update_rosterInv tk now m msg hInv h1) h2

theorem run_nextID_le [Float64 F] (m : model F L T) (evs : List (Time × Msg))
    (hInv : rosterInv m) (hBelow : staysBelowMax tk m evs = true) :
    m.nextID ≤ (run tk m evs).nextID := by
  induction evs generalizing m with
  | nil => exact le_refl _
  | cons ev rest ih =>
    obtain ⟨now, msg⟩ := ev
    obtain ⟨h1, h2⟩ := staysBelowMax_cons tk m now msg rest hBelow
    exact le_trans (Update_nextID_le tk now m msg hInv.1 h1)
      (ih _ (Update_rosterInv tk now m msg hInv h1) h2)

/-- An ID below the `nextID` of a state that is in the roster after further
messages, none of which wraps `nextID`, was in the roster of that state. -/
theorem run_old_ids [Float64 F] (m : model F L T) (more : List (Time × Msg)) (id : Int)
    (hInv : rosterInv m) (hBelow : staysBelowMax tk m more = true)
    (hMem : id ∈ rosterIDs (run tk m more)) (hOld : id < m.nextID) : id ∈ rosterIDs m := by
  induction more generalizing m with
  | nil => exact hMem
  | cons ev rest ih =>
    obtain ⟨now, msg⟩ := ev
    obtain ⟨h1, h2⟩ := staysBelowMax_cons tk m now msg rest hBelow
    have h3 : id ∈ rosterIDs (Update tk now m msg).1 :=
      ih _ (Update_rosterInv tk now m msg hInv h1) h2 hMem
        (lt_of_lt_of_le hOld (Update_nextID_le tk now m msg hInv.1 h1))
    rcases Update_ids tk now m msg with ⟨hSub, _⟩ | ⟨hApp, _⟩
    · exact hSub.subset h3
    · rw [hApp, List.mem_append, List.mem_singleton] at h3
      rcases h3 with h3 | h3
      · exact h3
      · omega

theorem newModel_rosterInv : rosterInv (newModel tk) :=
  ⟨le_refl _, List.nodup_nil, fun _ h => absurd h (List.not_mem_nil _)⟩

/-- C2, as the code has it: in every state reached from `newModel` by a sequence of
messages, and along further messages, as long as `nextID` is below the largest
`int` before each message, the IDs of the roster are pairwise distinct, each at
least 1 and below `nextID`; `nextID` does not decrease along the further
messages; and an ID below `nextID` that is not in the roster, such as one freed
by a deletion, is not in the later roster. -/
theorem ids_unique_never_reused [Float64 F] (evs more : List (Time × Msg))
    (hBelow : staysBelowMax tk (newModel tk) (evs ++ more) = true) :
    (rosterIDs (run tk (newModel tk) evs)).Nodup ∧
    (∀ id ∈ rosterIDs (run tk (newModel tk) evs),
      1 ≤ id ∧ id < (run tk (newModel tk) evs).nextID) ∧
    (run tk (newModel tk) evs).nextID ≤ (run tk (newModel tk) (evs ++ more)).nextID ∧
    (∀ id : Int,
      id < (run tk (newModel tk) evs).nextID →
      id ∉ rosterIDs (run tk (newModel tk) evs) →
      id ∉ rosterIDs (run tk (newModel tk) (evs ++ more))) := by
  obtain ⟨h1, h2⟩ := staysBelowMax_append tk (newModel tk) evs more hBelow
  have hInv := run_rosterInv tk (newModel tk) evs (newModel_rosterInv tk) h1
  refine ⟨hInv.2.1, hInv.2.2, ?_, fun id hOld hNot hMem => ?_⟩
  · rw [run_append]
    exact run_nextID_le tk _ more hInv h2
  · rw [run_append] at hMem
    exact hNot (run_old_ids tk _ more id hInv h2 hMem hOld)

/-- C2 amended, at Ana Lee added and deleted, then Bo Roe added: the ID 1 of Ana Lee
is free after the deletion, below `nextID`, and Bo Roe gets the ID 2. -/
theorem ids_unique_never_reused_witness :
    rosterIDs (run refToolkit (newModel refToolkit)
      (fillForm "Ana" "Lee" "20" ++
        [(0, Msg.key "enter"), (0, Msg.key "d"), (0, Msg.key "y")])) = [] ∧
    (run refToolkit (newModel refToolkit)
      (fillForm "Ana" "Lee" "20" ++
        [(0, Msg.key "enter"), (0, Msg.key "d"), (0, Msg.key "y")])).nextID = 2 ∧
    rosterIDs (run refToolkit (newModel refToolkit)
      ((fillForm "Ana" "Lee" "20" ++
        [(0, Msg.key "enter"), (0, Msg.key "d"), (0, Msg.key "y")]) ++
        (fillForm "Bo" "Roe" "15" ++ [(0, Msg.key "enter")]))) = [2] ∧
    (1 : Int) ∉ rosterIDs (run refToolkit (newModel refToolkit)
      ((fillForm "Ana" "Lee" "20" ++
        [(0, Msg.key "enter"), (0, Msg.key "d"), (0, Msg.key "y")]) ++
        (fillForm "Bo" "Roe" "15" ++ [(0, Msg.key "enter")]))) :=
  have h := ids_unique_never_reused refToolkit
    (fillForm "Ana" "Lee" "20" ++ [(0, Msg.key "enter"), (0, Msg.key "d"), (0, Msg.key "y")])
    (fillForm "Bo" "Roe" "15" ++ [(0, Msg.key "enter")]) (by decide)
  ⟨by decide, by decide, by decide, h.2.2.2 1 (by decide) (by decide)⟩

theorem addDeleteKeys_eq :
    addDeleteKeys =
      [(0, Msg.key "a"), (0, Msg.key "A"), (0, Msg.key "tab"), (0, Msg.key "tab"),
       (0, Msg.key "B"), (0, Msg.key "tab"), (0, Msg.key "1"), (0, Msg.key "enter"),
       (0, Msg.key "d"), (0, Msg.key "y")] := by
  decide

/-- From the freshly opened form, the rest of `addDeleteKeys` fills the form, adds
the employee under the ID `x`, and deletes it: the roster is empty again and
`nextID` is incremented. -/
theorem run_formState (x : Int) :
    run refToolkit (formState x fieldFirstName "" "" "" "")
      [(0, Msg.key "A"), (0, Msg.key "tab"), (0, Msg.key "tab"),
       (0, Msg.key "B"), (0, Msg.key "tab"), (0, Msg.key "1"), (0, Msg.key "enter"),
       (0, Msg.key "d"), (0, Msg.key "y")] = idleState (wrapInt (x + 1)) := by
  have h1 : (Update refToolkit 0 (formState x fieldFirstName "" "" "" "") (Msg.key "A")).1 =
      formState x fieldFirstName "A" "" "" "" := rfl
  have h2 : (Update refToolkit 0 (formState x fieldFirstName "A" "" "" "") (Msg.key "tab")).1 =
      formState x fieldMiddleName "A" "" "" "" := rfl
  have h3 : (Update refToolkit 0 (formState x fieldMiddleName "A" "" "" "") (Msg.key "tab")).1 =
      formState x fieldLastName "A" "" "" "" := rfl
  have h4 : (Update refToolkit 0 (formState x fieldLastName "A" "" "" "") (Msg.key "B")).1 =
      formState x fieldLastName "A" "" "B" "" := rfl
  have h5 : (Update refToolkit 0 (formState x fieldLastName "A" "" "B" "") (Msg.key "tab")).1 =
      formState x fieldRate "A" "" "B" "" := rfl
  have h6 : (Update refToolkit 0 (formState x fieldRate "A" "" "B" "") (Msg.key "1")).1 =
      formState x fieldRate "A" "" "B" "1" := rfl
  have h7 : (Update refToolkit 0 (formState x fieldRate "A" "" "B" "1") (Msg.key "enter")).1 =
      { idleState (wrapInt (x + 1)) with employees := [employeeAB x] } := by
    with_unfolding_all rfl
  have h8 : (Update refToolkit 0
      { idleState (wrapInt (x + 1)) with employees := [employeeAB x] } (Msg.key "d")).1 =
      { idleState (wrapInt (x + 1)) with
        employees := [employeeAB x], pendingDeleteIdx := 0, mode := modeConfirmDelete } := rfl
  have h9 : (Update refToolkit 0
      { idleState (wrapInt (x + 1)) with
        employees := [employeeAB x], pendingDeleteIdx := 0, mode := modeConfirmDelete }
      (Msg.key "y")).1 = idleState (wrapInt (x + 1)) := rfl
  simp only [run]
  rw [h1, h2, h3, h4, h5, h6, h7, h8, h9]

/-- From the state `addDeleteKeys` leaves, `addDeleteKeys` leads to the same state
with `nextID` incremented. -/
theorem run_idleState (x : Int) :
    run refToolkit (idleState x) addDeleteKeys = idleState (wrapInt (x + 1)) := by
  have h0 : (Update refToolkit 0 (idleState x) (Msg.key "a")).1 =
      formState x fieldFirstName "" "" "" "" := rfl
  rw [addDeleteKeys_eq]
  unfold run
  rw [h0]
  exact run_formState x

theorem run_newModel_addDeleteKeys :
    run refToolkit (newModel refToolkit) addDeleteKeys = idleState 2 := by
  have h0 : (Update refToolkit 0 (newModel refToolkit) (Msg.key "a")).1 =
      formState 1 fieldFirstName "" "" "" "" := rfl
  rw [addDeleteKeys_eq]
  unfold run
  rw [h0]
  exact run_formState 1

theorem run_idleState_repeat (n : Nat) (x : Int) (hMin : minInt ≤ x)
    (hMax : x + n ≤ maxInt) :
    run refToolkit (idleState x) (repeatKeys n addDeleteKeys) = idleState (x + n) := by
  induction n generalizing x with
  | zero => simp [repeatKeys, run]
  | succ n ih =>
    have hCast : ((n + 1 : Nat) : Int) = (n : Int) + 1 := by push_cast; rfl
    rw [hCast] at hMax
    have hW : wrapInt (x + 1) = x + 1 := wrapInt_succ x hMin (by omega)
    unfold repeatKeys
    rw [run_append, run_idleState, hW, ih (x + 1) (by omega) (by omega), hCast]
    congr 1
    omega

/-- The message sequence `addDeleteKeys` sent `n` times from the initial state, at
least once and while `nextID` does not wrap, leaves `nextID` at `1 + n`. -/
theorem run_newModel_repeat (n : Nat) (hPos : 0 < n) (hMax : (1 : Int) + n ≤ maxInt) :
    run refToolkit (newModel refToolkit) (repeatKeys n addDeleteKeys) =
      idleState (1 + n) := by
  cases n with
  | zero => exact absurd hPos (lt_irrefl 0)
  | succ k =>
    have hCast : ((k + 1 : Nat) : Int) = (k : Int) + 1 := by push_cast; rfl
    rw [hCast] at hMax
    unfold repeatKeys
    rw [run_append, run_newModel_addDeleteKeys,
      run_idleState_repeat k 2 (by unfold minInt; omega) (by omega), hCast]
    congr 1
    omega

/-- C2 as stated fails: after the employee A B is added and deleted
9223372036854775806 times from the initial state, `nextID` is the largest `int`,
and adding and deleting it once more leaves `nextID` at the smallest `int`:
`nextID` has decreased and is below 1. -/
theorem nextID_decreases_after_wrap :
    (run refToolkit (newModel refToolkit)
      (repeatKeys 9223372036854775806 addDeleteKeys)).nextID = 9223372036854775807 ∧
    (run refToolkit (newModel refToolkit)
      (repeatKeys 9223372036854775806 addDeleteKeys ++ addDeleteKeys)).nextID =
        -9223372036854775808 := by
  have h := run_newModel_repeat 9223372036854775806 (by norm_num)
    (by unfold maxInt; norm_num)
  constructor
  · rw [h]
    show (1 : Int) + ((9223372036854775806 : Nat) : Int) = 9223372036854775807
    norm_num
  · rw [run_append, h, run_idleState]
    show wrapInt ((1 : Int) + ((9223372036854775806 : Nat) : Int) + 1) = -9223372036854775808
    unfold wrapInt
    norm_num

/-! ### Deleting -/

theorem deleteByIndex_employees (m : model F L T) (idx : Int)
    (h : 0 ≤ idx ∧ idx < m.employees.length) :
    (deleteByIndex tk m idx).employees = m.employees.eraseIdx idx.toNat := by
  unfold deleteByIndex
  rw [if_neg (by omega)]
  simp only [syncList_employees]
  exact (List.eraseIdx_eq_take_drop_succ _ _).symm

/-- C3: for an index within the roster, `deleteByIndex` leaves one employee less:
the positions before the index keep their employee and every later position takes
the employee that followed it; for an index outside the roster the state is
unchanged. `nextID` is unchanged in both cases. -/
theorem deleteByIndex_removes_exactly (m : model F L T) (idx : Int) :
    (0 ≤ idx ∧ idx < m.employees.length →
      (deleteByIndex tk m idx).employees.length + 1 = m.employees.length ∧
      ∀ j : Nat, (deleteByIndex tk m idx).employees[j]? =
        if (j : Int) < idx then m.employees[j]? else m.employees[j + 1]?) ∧
    (idx < 0 ∨ (m.employees.length : Int) ≤ idx → deleteByIndex tk m idx = m) ∧
    (deleteByIndex tk m idx).nextID = m.nextID := by
  refine ⟨fun h => ?_, fun h => ?_, deleteByIndex_nextID tk m idx⟩
  · rw [deleteByIndex_employees tk m idx h]
    refine ⟨List.length_eraseIdx_add_one (by omega), fun j => ?_⟩
    rw [List.getElem?_eraseIdx]
    by_cases hj : j < idx.toNat
    · rw [if_pos hj, if_pos (by omega)]
    · rw [if_neg hj, if_neg (by omega)]
  · unfold deleteByIndex
    rw [if_pos (by omega)]

/-! ### Clocking out -/

/-- The method `Time.Sub` does not saturate on a duration between 0 and the largest
duration. -/
theorem timeSub_of_le (t u : Int) (hLe : u ≤ t) (hMax : t - u ≤ maxDuration) :
    timeSub t u = t - u := by
  have hMin : minDuration < 0 := by unfold minDuration; norm_num
  have h1 : ¬ (t - u < minDuration) := by omega
  have h2 : ¬ (maxDuration < t - u) := by omega
  simp only [timeSub, if_neg h1, if_neg h2]

/-- The state after `clockOutSelected` when the selected employee is clocked in. -/
theorem clockOutSelected_of_clockedIn [Float64 F] (now t1 : Time) (m : model F L T)
    (e : Employee F) (hSel : 0 ≤ getSelectedIndex tk m)
    (hGet : m.employees[(getSelectedIndex tk m).toNat]? = some e)
    (hIn : e.CurrentClockIn = some t1) :
    clockOutSelected tk now m =
      syncList tk
        { m with
          employees := m.employees.set (getSelectedIndex tk m).toNat
            { e with
              Sessions := e.Sessions ++
                [{ ClockInAt := t1, ClockOutAt := now,
                   Wage := Float64.mul (Float64.hours (timeSub now t1)) e.HourlyRate }]
              CurrentClockIn := Option.none }
          lastWageMessage :=
            fullName e ++ " clocked out â€” Session wage: $" ++
              Float64.fmt2 (Float64.mul (Float64.hours (timeSub now t1) : F) e.HourlyRate) } := by
  unfold clockOutSelected
  simp only [hGet, hIn]
  rw [if_neg (by omega)]
  rfl

/-- C4: when the selected employee is clocked in since `t1` and `now` is not before
`t1`, `clockOutSelected` replaces that employee by the same employee with one
session appended after the earlier ones, from `t1` to `now` with wage
hours(now - t1) * HourlyRate, and with no active clock-in. The duration is
`now - t1` itself whenever it is at most the largest duration. -/
theorem clockOutSelected_appends_session [Float64 F] (now t1 : Time) (m : model F L T)
    (e : Employee F) (hSel : 0 ≤ getSelectedIndex tk m)
    (hGet : m.employees[(getSelectedIndex tk m).toNat]? = some e)
    (hIn : e.CurrentClockIn = some t1) (hLe : t1 ≤ now) :
    (clockOutSelected tk now m).employees[(getSelectedIndex tk m).toNat]? =
      some
        { e with
          Sessions := e.Sessions ++
            [{ ClockInAt := t1, ClockOutAt := now,
               Wage := Float64.mul (Float64.hours (timeSub now t1)) e.HourlyRate }]
          CurrentClockIn := Option.none } ∧
    (now - t1 ≤ maxDuration → timeSub now t1 = now - t1) := by
  constructor
  · rw [clockOutSelected_of_clockedIn tk now t1 m e hSel hGet hIn]
    simp only [syncList_employees]
    rw [List.getElem?_set_self (getSelectedIndex_lt tk m hSel)]
  · exact timeSub_of_le now t1 hLe

/-- C4 at rate 20.00, clock-in 09:00, clock-out 17:00: the session has wage 160. -/
theorem clockOutSelected_appends_session_witness :
    (clockOutSelected refToolkit (17 * Hour) anaClockedIn).employees[0]? =
      some
        { ID := 1, FirstName := "Ana", MiddleName := "", LastName := "Lee", HourlyRate := 20,
          CurrentClockIn := Option.none,
          Sessions := [{ ClockInAt := 9 * Hour, ClockOutAt := 17 * Hour, Wage := 160 }] } := by
  have h := (clockOutSelected_appends_session refToolkit (17 * Hour) (9 * Hour) anaClockedIn
    { ID := 1, FirstName := "Ana", MiddleName := "", LastName := "Lee", HourlyRate := 20,
      CurrentClockIn := some (9 * Hour), Sessions := [] }
    (by decide) (by with_unfolding_all rfl) rfl (by decide)).1
  with_unfolding_all exact h

/-! ### Validation of the form -/

/-- C5, as the code has it: on a form whose trimmed names and rate text are not
empty and whose rate text parses as a negative number, `addEmployeeFromInputs`
returns no error and appends the employee with that negative rate, so the roster
then holds an employee whose `HourlyRate` is negative. -/
theorem addEmployeeFromInputs_negative_rate [Float64 F] (m : model F L T) (rate : F)
    (hFirst : trimSpace (tk.inputValue m.firstName) ≠ "")
    (hLast : trimSpace (tk.inputValue m.lastName) ≠ "")
    (hRate : trimSpace (tk.inputValue m.rate) ≠ "")
    (hParse : Float64.parseFloat (trimSpace (tk.inputValue m.rate)) = some rate)
    (hNeg : Float64.lt rate Float64.zero = true) :
    (addEmployeeFromInputs tk m).2 = Option.none ∧
    (addEmployeeFromInputs tk m).1.employees.length = m.employees.length + 1 ∧
    ∃ e ∈ (addEmployeeFromInputs tk m).1.employees,
      e.ID = m.nextID ∧ e.HourlyRate = rate ∧ Float64.lt e.HourlyRate Float64.zero = true := by
  rw [addEmployeeFromInputs_of_parse tk m rate hFirst hLast hRate hParse]
  refine ⟨rfl, by simp, ?_⟩
  exact ⟨_, List.mem_append_right _ (List.mem_singleton_self _), rfl, rfl, hNeg⟩

/-- C5 amended, at the form of Ana Lee with rate text -5: it is accepted. -/
theorem addEmployeeFromInputs_negative_rate_witness :
    (addEmployeeFromInputs refToolkit formNegativeRate).2 = Option.none ∧
    (addEmployeeFromInputs refToolkit formNegativeRate).1.employees.length = 1 ∧
    ∃ e ∈ (addEmployeeFromInputs refToolkit formNegativeRate).1.employees,
      e.ID = 1 ∧ e.HourlyRate = -5 ∧ Float64.lt e.HourlyRate Float64.zero = true :=
  addEmployeeFromInputs_negative_rate refToolkit formNegativeRate (-5) (by decide) (by decide)
    (by decide) (by with_unfolding_all rfl) (by with_unfolding_all rfl)

/-- C5 as stated fails: the rate text -5 parses as the negative number -5, both
names are present, and `addEmployeeFromInputs` returns no error and leaves a
roster whose only employee has rate -5. -/
theorem negative_rate_is_accepted :
    Float64.parseFloat (trimSpace (refToolkit.inputValue formNegativeRate.rate)) = some (-5 : ℚ) ∧
    Float64.lt (-5 : ℚ) Float64.zero = true ∧
    (addEmployeeFromInputs refToolkit formNegativeRate).2 = Option.none ∧
    (addEmployeeFromInputs refToolkit formNegativeRate).1.employees =
      [{ ID := 1, FirstName := "Ana", MiddleName := "", LastName := "Lee", HourlyRate := -5,
         CurrentClockIn := Option.none, Sessions := [] }] := by
  refine ⟨?_, ?_, ?_, ?_⟩ <;> with_unfolding_all rfl

/-- The message `addEmployeeFromInputs` returns, by the blank fields. -/
theorem addEmployeeFromInputs_error [Float64 F] (m : model F L T) (msg : String)
    (hFail : (addEmployeeFromInputs tk m).2 = some msg) :
    (trimSpace (tk.inputValue m.firstName) = "" ∨ trimSpace (tk.inputValue m.lastName) = "" ∨
        trimSpace (tk.inputValue m.rate) = "") ∧
      msg = String.mk (List.drop 1
        ((if trimSpace (tk.inputValue m.firstName) = "" then "\nMissing first name" else "") ++
         (if trimSpace (tk.inputValue m.lastName) = "" then "\nMissing last name" else "") ++
         (if trimSpace (tk.inputValue m.rate) = "" then "\nMissing hourly rate" else "")).data) ∨
    (trimSpace (tk.inputValue m.firstName) ≠ "" ∧ trimSpace (tk.inputValue m.lastName) ≠ "" ∧
        trimSpace (tk.inputValue m.rate) ≠ "" ∧
        (Float64.parseFloat (trimSpace (tk.inputValue m.rate)) : Option F) = Option.none ∧
        msg = "Hourly rate must be a numeric value.") := by
  unfold addEmployeeFromInputs at hFail
  dsimp only at hFail
  by_cases h1 : trimSpace (tk.inputValue m.firstName) = "" ∨
      trimSpace (tk.inputValue m.lastName) = "" ∨ trimSpace (tk.inputValue m.rate) = ""
  · rw [if_pos h1] at hFail
    left
    refine ⟨h1, ?_⟩
    simp only [Option.some.injEq] at hFail
    rw [← hFail]
    by_cases hF : trimSpace (tk.inputValue m.firstName) = "" <;>
    by_cases hL : trimSpace (tk.inputValue m.lastName) = "" <;>
    by_cases hR : trimSpace (tk.inputValue m.rate) = "" <;>
    simp [hF, hL, hR]
  · rw [if_neg h1] at hFail
    simp only [not_or] at h1
    right
    refine ⟨h1.1, h1.2.1, h1.2.2, ?_⟩
    split at hFail
    · rename_i hNone
      simp only [Option.some.injEq] at hFail
      exact ⟨hNone, hFail.symm⟩
    · simp at hFail

/-- C6, as the code has it: the message of a rejected form mentions the first name
whenever the trimmed first name is empty, the last name whenever the trimmed last
name is empty, and the hourly rate whenever the trimmed rate text is empty, or
does not parse while both names are present. -/
theorem addEmployeeFromInputs_error_mentions [Float64 F] (m : model F L T) (msg : String)
    (hFail : (addEmployeeFromInputs tk m).2 = some msg) :
    (trimSpace (tk.inputValue m.firstName) = "" → mentions msg "first name") ∧
    (trimSpace (tk.inputValue m.lastName) = "" → mentions msg "last name") ∧
    (trimSpace (tk.inputValue m.rate) = "" → mentions msg "hourly rate") ∧
    (trimSpace (tk.inputValue m.firstName) ≠ "" → trimSpace (tk.inputValue m.lastName) ≠ "" →
      (Float64.parseFloat (trimSpace (tk.inputValue m.rate)) : Option F) = Option.none →
      mentions msg "hourly rate") := by
  rcases addEmployeeFromInputs_error tk m msg hFail with ⟨hBlank, hMsg⟩ | ⟨hF, hL, hR, _, hMsg⟩
  · subst hMsg
    refine ⟨fun hF => ?_, fun hL => ?_, fun hR => ?_, fun hF hL _ => ?_⟩
    · rw [if_pos hF]
      by_cases hL : trimSpace (tk.inputValue m.lastName) = "" <;>
      by_cases hR : trimSpace (tk.inputValue m.rate) = "" <;>
      simp only [hL, hR, if_true, if_false] <;> decide
    · rw [if_pos hL]
      by_cases hF : trimSpace (tk.inputValue m.firstName) = "" <;>
      by_cases hR : trimSpace (tk.inputValue m.rate) = "" <;>
      simp only [hF, hR, if_true, if_false] <;> decide
    · rw [if_pos hR]
      by_cases hF : trimSpace (tk.inputValue m.firstName) = "" <;>
      by_cases hL : trimSpace (tk.inputValue m.lastName) = "" <;>
      simp only [hF, hL, if_true, if_false] <;> decide
    · have hR : trimSpace (tk.inputValue m.rate) = "" := by
        rcases hBlank with h | h | h
        · exact absurd h hF
        · exact absurd h hL
        · exact h
      rw [if_neg hF, if_neg hL, if_pos hR]
      decide
  · subst hMsg
    exact ⟨fun h => absurd h hF, fun h => absurd h hL, fun h => absurd h hR,
      fun _ _ _ => by decide⟩

/-- C6 amended, at the form with no first name and no rate: the message mentions
both the first name and the hourly rate. -/
theorem addEmployeeFromInputs_error_mentions_witness :
    (addEmployeeFromInputs refToolkit formNoFirstNoRate).2 =
      some "Missing first name\nMissing hourly rate" ∧
    mentions "Missing first name\nMissing hourly rate" "first name" ∧
    mentions "Missing first name\nMissing hourly rate" "hourly rate" :=
  have h := addEmployeeFromInputs_error_mentions refToolkit formNoFirstNoRate
    "Missing first name\nMissing hourly rate" (by decide)
  ⟨by decide, h.1 (by decide), h.2.2.1 (by decide)⟩

/-- C6 as stated fails: with no first name and the rate text abc, which does not
parse, the form is rejected with a message that mentions the first name only,
not the hourly rate. -/
theorem unparsed_rate_not_mentioned :
    trimSpace (refToolkit.inputValue formNoFirstBadRate.rate) = "abc" ∧
    (Float64.parseFloat "abc" : Option ℚ) = Option.none ∧
    (addEmployeeFromInputs refToolkit formNoFirstBadRate).2 = some "Missing first name" ∧
    ¬ mentions "Missing first name" "hourly rate" := by
  refine ⟨by decide, by with_unfolding_all rfl, by decide, by decide⟩

/-! ### Submitting the form -/

/-- On the rate field, enter and tab submit the form. -/
theorem Update_submit [Float64 F] (now : Time) (m : model F L T) (k : String)
    (hMode : m.mode = modeAdd) (hField : m.field = fieldRate)
    (hKey : k = "enter" ∨ k = "tab") :
    (Update tk now m (Msg.key k)).1 =
      match addEmployeeFromInputs tk m with
      | (m2, some err) => { m2 with err := some err }
      | (m2, Option.none) => { m2 with mode := modeList, err := Option.none } := by
  unfold Update
  simp only [hMode, hField]
  rcases hKey with rfl | rfl
  · rw [if_neg (by decide), if_pos (by decide)]
    split <;> rfl
  · rw [if_neg (by decide), if_pos (by decide)]
    split <;> rfl

/-- C7: in AddEmployee mode with the focus on the rate field, enter or tab either
passes validation, and then the mode is List, the error is nil and the roster is
the old one with exactly one employee appended; or fails validation, and then the
mode is still AddEmployee, the focus still on the rate field, the error is the
one returned, and the roster and `nextID` are what they were. -/
theorem Update_submit_form [Float64 F] (now : Time) (m : model F L T) (k : String)
    (hMode : m.mode = modeAdd) (hField : m.field = fieldRate)
    (hKey : k = "enter" ∨ k = "tab") :
    ((addEmployeeFromInputs tk m).2 = Option.none ∧
      (Update tk now m (Msg.key k)).1.mode = modeList ∧
      (Update tk now m (Msg.key k)).1.err = Option.none ∧
      (Update tk now m (Msg.key k)).1.employees.length = m.employees.length + 1 ∧
      ∃ e : Employee F, (Update tk now m (Msg.key k)).1.employees = m.employees ++ [e]) ∨
    ((addEmployeeFromInputs tk m).2 ≠ Option.none ∧
      (Update tk now m (Msg.key k)).1.mode = modeAdd ∧
      (Update tk now m (Msg.key k)).1.field = fieldRate ∧
      (Update tk now m (Msg.key k)).1.err = (addEmployeeFromInputs tk m).2 ∧
      (Update tk now m (Msg.key k)).1.employees = m.employees ∧
      (Update tk now m (Msg.key k)).1.nextID = m.nextID) := by
  rw [Update_submit tk now m k hMode hField hKey]
  rcases addEmployeeFromInputs_cases tk m with ⟨h1, h2⟩ | ⟨h1, _, e, _, h4⟩
  · right
    refine ⟨h2, ?_⟩
    split
    · rename_i m2 err hEq
      rw [hEq] at h1
      simp only at h1
      subst h1
      exact ⟨hMode, hField, by rw [hEq], rfl, rfl⟩
    · rename_i m2 hEq
      rw [hEq] at h2
      exact absurd rfl h2
  · left
    refine ⟨h1, ?_⟩
    split
    · rename_i m2 err hEq
      rw [hEq] at h1
      simp at h1
    · rename_i m2 hEq
      rw [hEq] at h4
      simp only at h4
      exact ⟨rfl, rfl, by simp [h4], e, h4⟩

/-- C7 at the form filled with Ana Lee at rate 20: enter passes validation, the
mode becomes List and the roster has its first employee. -/
theorem Update_submit_form_witness :
    (addEmployeeFromInputs refToolkit formAnaLee).2 = Option.none ∧
    (Update refToolkit 0 formAnaLee (Msg.key "enter")).1.mode = modeList ∧
    (Update refToolkit 0 formAnaLee (Msg.key "enter")).1.employees.length = 1 :=
  (Update_submit_form refToolkit 0 formAnaLee "enter" (by decide) (by decide)
    (Or.inl rfl)).elim (fun h => ⟨h.1, h.2.1, h.2.2.2.1⟩)
    (fun h => absurd (by decide) h.1)

/-! ### Clocking in -/

/-- In List mode the key i clocks the selected employee in and clears the wage
message. -/
theorem Update_clockIn [Float64 F] (now : Time) (m : model F L T) (hMode : m.mode = modeList) :
    (Update tk now m (Msg.key "i")).1 = { clockInSelected tk now m with lastWageMessage := "" } := by
  unfold Update
  simp only [hMode]
  rw [if_neg (by decide), if_neg (by decide), if_neg (by decide), if_pos (by decide)]

/-- C8: in List mode with a valid selection, the clock-in key at time `now` sets
the active clock-in of the selected employee to `now` and does not touch the error
when that employee is clocked out, and keeps the clock-in and sets the error
"Employee is already clocked in." when the employee is clocked in. In both cases
the selected employee keeps its sessions, ID, names and rate, every other position
of the roster and its length are unchanged, `nextID` is unchanged and the mode is
still List. -/
theorem Update_clockIn_selected [Float64 F] (now : Time) (m : model F L T) (e : Employee F)
    (hMode : m.mode = modeList) (hSel : 0 ≤ getSelectedIndex tk m)
    (hGet : m.employees[(getSelectedIndex tk m).toNat]? = some e) :
    (e.CurrentClockIn = Option.none →
      (Update tk now m (Msg.key "i")).1.employees[(getSelectedIndex tk m).toNat]? =
        some { e with CurrentClockIn := some now } ∧
      (Update tk now m (Msg.key "i")).1.err = m.err) ∧
    (e.CurrentClockIn ≠ Option.none →
      (Update tk now m (Msg.key "i")).1.employees[(getSelectedIndex tk m).toNat]? = some e ∧
      (Update tk now m (Msg.key "i")).1.err = some "Employee is already clocked in.") ∧
    (∃ e2 : Employee F,
      (Update tk now m (Msg.key "i")).1.employees[(getSelectedIndex tk m).toNat]? = some e2 ∧
      e2.Sessions = e.Sessions ∧ e2.ID = e.ID ∧ e2.FirstName = e.FirstName ∧
      e2.MiddleName = e.MiddleName ∧ e2.LastName = e.LastName ∧
      e2.HourlyRate = e.HourlyRate) ∧
    (∀ j : Nat, j ≠ (getSelectedIndex tk m).toNat →
      (Update tk now m (Msg.key "i")).1.employees[j]? = m.employees[j]?) ∧
    (Update tk now m (Msg.key "i")).1.employees.length = m.employees.length ∧
    (Update tk now m (Msg.key "i")).1.nextID = m.nextID ∧
    (Update tk now m (Msg.key "i")).1.mode = modeList := by
  rw [Update_clockIn tk now m hMode]
  have hLt := getSelectedIndex_lt tk m hSel
  unfold clockInSelected
  simp only [hGet]
  rw [if_neg (by omega)]
  by_cases hIn : e.CurrentClockIn = Option.none
  · rw [if_neg (by simpa using hIn)]
    simp only [syncList_employees]
    refine ⟨fun _ => ⟨?_, rfl⟩, fun h => absurd hIn h,
      ⟨{ e with CurrentClockIn := some now }, ?_, rfl, rfl, rfl, rfl, rfl, rfl⟩,
      fun j hj => ?_, ?_, rfl, hMode⟩
    · exact List.getElem?_set_self hLt
    · exact List.getElem?_set_self hLt
    · exact List.getElem?_set_ne (Ne.symm hj)
    · exact List.length_set _ _ _
  · rw [if_pos (by simpa using hIn)]
    exact ⟨fun h => absurd h hIn, fun _ => ⟨hGet, rfl⟩, ⟨e, hGet, rfl, rfl, rfl, rfl, rfl, rfl⟩,
      fun _ _ => rfl, rfl, rfl, hMode⟩

/-- C8 at Ana Lee, added and clocked out: the clock-in key at 09:00 clocks her in
at 09:00. -/
theorem Update_clockIn_selected_witness :
    (Update refToolkit (9 * Hour) anaAdded (Msg.key "i")).1.employees[0]? =
      some { ID := 1, FirstName := "Ana", MiddleName := "", LastName := "Lee", HourlyRate := 20,
             CurrentClockIn := some (9 * Hour), Sessions := [] } ∧
    (Update refToolkit (9 * Hour) anaAdded (Msg.key "i")).1.err = Option.none := by
  have h := (Update_clockIn_selected refToolkit (9 * Hour) anaAdded
    { ID := 1, FirstName := "Ana", MiddleName := "", LastName := "Lee", HourlyRate := 20,
      CurrentClockIn := Option.none, Sessions := [] }
    (by decide) (by decide) (by with_unfolding_all rfl)).1 rfl
  with_unfolding_all exact h

/-! ### Clocking out while clocked out -/

/-- In List mode the key o clocks the selected employee out. -/
theorem Update_clockOut [Float64 F] (now : Time) (m : model F L T) (hMode : m.mode = modeList) :
    (Update tk now m (Msg.key "o")).1 = clockOutSelected tk now m := by
  unfold Update
  simp only [hMode]
  rw [if_neg (by decide), if_neg (by decide), if_neg (by decide), if_neg (by decide),
    if_pos (by decide)]

/-- C9: in List mode, when the selected employee has no active clock-in, the
clock-out key sets the error "Employee is not clocked in yet." and changes nothing
else in the state: the roster with every session and clock-in, `nextID`, the last
wage message and the mode are the same. -/
theorem Update_clockOut_not_clocked_in [Float64 F] (now : Time) (m : model F L T)
    (e : Employee F) (hMode : m.mode = modeList) (hSel : 0 ≤ getSelectedIndex tk m)
    (hGet : m.employees[(getSelectedIndex tk m).toNat]? = some e)
    (hOut : e.CurrentClockIn = Option.none) :
    (Update tk now m (Msg.key "o")).1 = { m with err := some "Employee is not clocked in yet." } ∧
    (Update tk now m (Msg.key "o")).1.employees = m.employees ∧
    (Update tk now m (Msg.key "o")).1.nextID = m.nextID ∧
    (Update tk now m (Msg.key "o")).1.lastWageMessage = m.lastWageMessage ∧
    (Update tk now m (Msg.key "o")).1.mode = modeList := by
  have h : (Update tk now m (Msg.key "o")).1 =
      { m with err := some "Employee is not clocked in yet." } := by
    rw [Update_clockOut tk now m hMode]
    unfold clockOutSelected
    simp only [hGet, hOut]
    rw [if_neg (by omega)]
  rw [h]
  exact ⟨rfl, rfl, rfl, rfl, hMode⟩

/-- C9 at Ana Lee, added and clocked out: the clock-out key only sets the error. -/
theorem Update_clockOut_not_clocked_in_witness :
    (Update refToolkit (17 * Hour) anaAdded (Msg.key "o")).1.err =
      some "Employee is not clocked in yet." ∧
    (Update refToolkit (17 * Hour) anaAdded (Msg.key "o")).1.employees = anaAdded.employees :=
  have h := Update_clockOut_not_clocked_in refToolkit (17 * Hour) anaAdded
    { ID := 1, FirstName := "Ana", MiddleName := "", LastName := "Lee", HourlyRate := 20,
      CurrentClockIn := Option.none, Sessions := [] }
    (by decide) (by decide) (by with_unfolding_all rfl) rfl
  ⟨by rw [h.1], h.2.1⟩

/-! ### Total wage -/

theorem TotalWage.loop_eq_foldl [Float64 F] (sessions : List (Session F)) (total : F) :
    TotalWage.loop sessions total = (sessions.map Session.Wage).foldl Float64.add total := by
  induction sessions generalizing total with
  | nil => rfl
  | cons s rest ih => exact ih _

theorem TotalWage_eq_foldl [Float64 F] (e : Employee F) :
    TotalWage e = (e.Sessions.map Session.Wage).foldl Float64.add Float64.zero :=
  TotalWage.loop_eq_foldl e.Sessions Float64.zero

/-- The state after `clockInSelected` when the selected employee is clocked out. -/
theorem clockInSelected_of_clockedOut (now : Time) (m : model F L T) (e : Employee F)
    (hSel : 0 ≤ getSelectedIndex tk m)
    (hGet : m.employees[(getSelectedIndex tk m).toNat]? = some e)
    (hOut : e.CurrentClockIn = Option.none) :
    clockInSelected tk now m =
      syncList tk
        { m with
          employees := m.employees.set (getSelectedIndex tk m).toNat
            { e with CurrentClockIn := some now } } := by
  unfold clockInSelected
  simp only [hGet]
  rw [if_neg (by omega), if_neg (by simpa using hOut)]

/-- One clock-in/clock-out cycle on the selected, clocked-out employee, when the
employee is still selected after the clock-in: the mode is kept and the employee
gains the session of the cycle. -/
theorem run_cycle [Float64 F] (m : model F L T) (e : Employee F) (c : Time × Time)
    (hMode : m.mode = modeList) (hSel : 0 ≤ getSelectedIndex tk m)
    (hGet : m.employees[(getSelectedIndex tk m).toNat]? = some e)
    (hOut : e.CurrentClockIn = Option.none)
    (hStay : getSelectedIndex tk (Update tk c.1 m (Msg.key "i")).1 = getSelectedIndex tk m) :
    (run tk m (cycleKeys [c])).mode = modeList ∧
    (run tk m (cycleKeys [c])).employees[(getSelectedIndex tk m).toNat]? =
      some { e with Sessions := e.Sessions ++ [cycleSession e.HourlyRate c] } := by
  obtain ⟨tIn, tOut⟩ := c
  have hLt := getSelectedIndex_lt tk m hSel
  -- the state after the clock-in key
  have h1 : (Update tk tIn m (Msg.key "i")).1 =
      { syncList tk
          { m with
            employees := m.employees.set (getSelectedIndex tk m).toNat
              { e with CurrentClockIn := some tIn } } with lastWageMessage := "" } := by
    rw [Update_clockIn tk tIn m hMode, clockInSelected_of_clockedOut tk tIn m e hSel hGet hOut]
  have hMode1 : (Update tk tIn m (Msg.key "i")).1.mode = modeList := by rw [h1]; exact hMode
  have hGet1 : (Update tk tIn m (Msg.key "i")).1.employees[
      (getSelectedIndex tk (Update tk tIn m (Msg.key "i")).1).toNat]? =
      some { e with CurrentClockIn := some tIn } := by
    rw [hStay, h1]
    exact List.getElem?_set_self hLt
  -- the state after the clock-out key
  have h2 := clockOutSelected_of_clockedIn tk tOut tIn (Update tk tIn m (Msg.key "i")).1
    { e with CurrentClockIn := some tIn } (by rw [hStay]; exact hSel) hGet1 rfl
  simp only [cycleKeys, run]
  rw [Update_clockOut tk tOut _ hMode1, h2, hStay]
  refine ⟨hMode1, ?_⟩
  simp only [syncList_employees]
  rw [List.getElem?_set_self (by rw [h1]; simpa using hLt)]
  simp [cycleSession, cycleWage, hOut]

/-- Any number of clock-in/clock-out cycles on the selected, clocked-out employee,
when the employee is still selected after each key: the employee gains the
sessions of the cycles, in order. -/
theorem run_cycles [Float64 F] (cycles : List (Time × Time)) (m : model F L T) (e : Employee F)
    (hMode : m.mode = modeList) (hSel : 0 ≤ getSelectedIndex tk m)
    (hGet : m.employees[(getSelectedIndex tk m).toNat]? = some e)
    (hOut : e.CurrentClockIn = Option.none)
    (hStay : ∀ k : Nat,
      getSelectedIndex tk (run tk m ((cycleKeys cycles).take k)) = getSelectedIndex tk m) :
    (run tk m (cycleKeys cycles)).employees[(getSelectedIndex tk m).toNat]? =
      some { e with Sessions := e.Sessions ++ cycles.map (cycleSession e.HourlyRate) } := by
  induction cycles generalizing m e with
  | nil => simpa [cycleKeys, run] using hGet
  | cons c rest ih =>
    obtain ⟨tIn, tOut⟩ := c
    have hStay1 : getSelectedIndex tk (Update tk tIn m (Msg.key "i")).1 =
        getSelectedIndex tk m := hStay 1
    have hStay2 : getSelectedIndex tk (run tk m (cycleKeys [(tIn, tOut)])) =
        getSelectedIndex tk m := hStay 2
    obtain ⟨hMode1, hGet1⟩ := run_cycle tk m e (tIn, tOut) hMode hSel hGet hOut hStay1
    have hKeys : cycleKeys ((tIn, tOut) :: rest) = cycleKeys [(tIn, tOut)] ++ cycleKeys rest := rfl
    have hRest : ∀ k : Nat,
        getSelectedIndex tk (run tk (run tk m (cycleKeys [(tIn, tOut)])) ((cycleKeys rest).take k)) =
          getSelectedIndex tk (run tk m (cycleKeys [(tIn, tOut)])) := by
      intro k
      rw [hStay2]
      exact hStay (k + 2)
    rw [hKeys, run_append]
    have h := ih (run tk m (cycleKeys [(tIn, tOut)]))
      { e with Sessions := e.Sessions ++ [cycleSession e.HourlyRate (tIn, tOut)] }
      hMode1 (by rw [hStay2]; exact hSel) (by rw [hStay2]; exact hGet1) hOut hRest
    rw [hStay2] at h
    rw [h]
    simp

/-- C10: `TotalWage` is the sum of the wages of the sessions, added in order from 0,
for every employee. For an employee that has no session and is clocked out it is
0, and after any number of clock-in/clock-out cycles on it, the employee being
the selected one at each key, it is the sum of the wages computed by the
clock-outs. Each clock-out of a clocked-in employee turns `TotalWage` into the
former `TotalWage` plus the wage of the new session. -/
theorem TotalWage_is_sum_of_wages [Float64 F] (m : model F L T) (e : Employee F)
    (cycles : List (Time × Time))
    (hMode : m.mode = modeList) (hSel : 0 ≤ getSelectedIndex tk m)
    (hGet : m.employees[(getSelectedIndex tk m).toNat]? = some e)
    (hFresh : e.Sessions = [] ∧ e.CurrentClockIn = Option.none)
    (hStay : ∀ k : Nat,
      getSelectedIndex tk (run tk m ((cycleKeys cycles).take k)) = getSelectedIndex tk m) :
    (∀ e0 : Employee F,
      TotalWage e0 = (e0.Sessions.map Session.Wage).foldl Float64.add Float64.zero) ∧
    TotalWage e = Float64.zero ∧
    (∃ e2 : Employee F,
      (run tk m (cycleKeys cycles)).employees[(getSelectedIndex tk m).toNat]? = some e2 ∧
      e2.Sessions.length = cycles.length ∧
      TotalWage e2 =
        (cycles.map (cycleWage e.HourlyRate)).foldl Float64.add Float64.zero) ∧
    (∀ (now t1 : Time) (m1 : model F L T) (e1 : Employee F),
      0 ≤ getSelectedIndex tk m1 →
      m1.employees[(getSelectedIndex tk m1).toNat]? = some e1 →
      e1.CurrentClockIn = some t1 →
      ∃ e3 : Employee F,
        (clockOutSelected tk now m1).employees[(getSelectedIndex tk m1).toNat]? = some e3 ∧
        TotalWage e3 =
          Float64.add (TotalWage e1) (Float64.mul (Float64.hours (timeSub now t1)) e1.HourlyRate)) := by
  refine ⟨TotalWage_eq_foldl, ?_, ?_, ?_⟩
  · rw [TotalWage_eq_foldl, hFresh.1]
    rfl
  · refine ⟨_, run_cycles tk cycles m e hMode hSel hGet hFresh.2 hStay, ?_, ?_⟩
    · simp [hFresh.1]
    · rw [TotalWage_eq_foldl]
      simp only [hFresh.1, List.nil_append, List.map_map]
      rfl
  · intro now t1 m1 e1 hSel1 hGet1 hIn1
    rw [clockOutSelected_of_clockedIn tk now t1 m1 e1 hSel1 hGet1 hIn1]
    simp only [syncList_employees]
    refine ⟨_, List.getElem?_set_self (getSelectedIndex_lt tk m1 hSel1), ?_⟩
    simp [TotalWage_eq_foldl, List.foldl_append]

/-- C10 at Ana Lee, rate 20, freshly added: after the cycles 09:00 to 17:00 and
18:00 to 18:30 the total wage is 160 + 10. -/
theorem TotalWage_is_sum_of_wages_witness :
    TotalWage
      ({ ID := 1, FirstName := "Ana", MiddleName := "", LastName := "Lee", HourlyRate := 20,
         CurrentClockIn := Option.none, Sessions := [] } : Employee ℚ) = 0 ∧
    ∃ e2 : Employee ℚ,
      (run refToolkit anaAdded
        (cycleKeys [(9 * Hour, 17 * Hour), (18 * Hour, 18 * Hour + Hour / 2)])).employees[0]? =
        some e2 ∧
      e2.Sessions.length = 2 ∧ TotalWage e2 = 170 := by
  have hStay : ∀ k : Nat,
      getSelectedIndex refToolkit (run refToolkit anaAdded
        ((cycleKeys [(9 * Hour, 17 * Hour), (18 * Hour, 18 * Hour + Hour / 2)]).take k)) =
      getSelectedIndex refToolkit anaAdded := by
    intro k
    match k with
    | 0 => rfl
    | 1 => rfl
    | 2 => rfl
    | 3 => rfl
    | k + 4 =>
      rw [List.take_of_length_le (by simp [cycleKeys])]
      rfl
  have h := TotalWage_is_sum_of_wages refToolkit anaAdded
    { ID := 1, FirstName := "Ana", MiddleName := "", LastName := "Lee", HourlyRate := 20,
      CurrentClockIn := Option.none, Sessions := [] }
    [(9 * Hour, 17 * Hour), (18 * Hour, 18 * Hour + Hour / 2)]
    (by decide) (by decide) (by with_unfolding_all rfl) ⟨rfl, rfl⟩ hStay
  refine ⟨h.2.1, ?_⟩
  obtain ⟨e2, h1, h2, h3⟩ := h.2.2.1
  refine ⟨e2, h1, h2, ?_⟩
  rw [h3]
  with_unfolding_all rfl

/-! ### Display of an employee -/

theorem fullName_eq_displayName (e : Employee F) : fullName e = displayName e := by
  unfold fullName displayName
  by_cases h : e.MiddleName = "" <;> simp [h]

/-- A text followed by two different endings gives two different texts. -/
theorem append_ne_of_ne (a b c : String) (h : b ≠ c) : a ++ b ≠ a ++ c := by
  intro hEq
  apply h
  have hData := congrArg String.data hEq
  simp only [String.data_append, List.append_cancel_left_eq] at hData
  exact String.ext hData

/-- C20: `Title` is the full display name followed by the status between
parentheses, the status being "clocked in" when the active clock-in is set and
"clocked out" when it is not, whatever the sessions, in particular with none; it
is never the full display name followed by "(idle)". -/
theorem Title_name_and_status (e : Employee F) :
    (e.CurrentClockIn ≠ Option.none → Title e = displayName e ++ " (" ++ "clocked in" ++ ")") ∧
    (e.CurrentClockIn = Option.none → Title e = displayName e ++ " (" ++ "clocked out" ++ ")") ∧
    (e.CurrentClockIn = Option.none → e.Sessions = [] →
      Title e = displayName e ++ " (" ++ "clocked out" ++ ")") ∧
    Title e ≠ displayName e ++ " (" ++ "idle" ++ ")" := by
  have hName : Title e = displayName e ++ " (" ++
      (if e.CurrentClockIn ≠ Option.none then "clocked in" else "clocked out") ++ ")" := by
    rw [← fullName_eq_displayName]
    rfl
  refine ⟨fun h => ?_, fun h => ?_, fun h _ => ?_, ?_⟩
  · rw [hName, if_pos h]
  · rw [hName, if_neg (not_not.mpr h)]
  · rw [hName, if_neg (not_not.mpr h)]
  · rw [hName]
    simp only [String.append_assoc]
    refine append_ne_of_ne _ _ _ (append_ne_of_ne _ _ _ ?_)
    by_cases h : e.CurrentClockIn ≠ Option.none
    · rw [if_pos h]
      decide
    · rw [if_neg h]
      decide

/-! ### The mode machine -/

/-- What `addEmployeeFromInputs` leaves as it was. -/
theorem addEmployeeFromInputs_frame [Float64 F] (m : model F L T) :
    (addEmployeeFromInputs tk m).1.mode = m.mode ∧
    (addEmployeeFromInputs tk m).1.field = m.field ∧
    (addEmployeeFromInputs tk m).1.selectedEmpIdx = m.selectedEmpIdx ∧
    (addEmployeeFromInputs tk m).1.pendingDeleteIdx = m.pendingDeleteIdx := by
  unfold addEmployeeFromInputs
  dsimp only
  by_cases h1 : trimSpace (tk.inputValue m.firstName) = "" ∨
      trimSpace (tk.inputValue m.lastName) = "" ∨ trimSpace (tk.inputValue m.rate) = ""
  · rw [if_pos h1]
    exact ⟨rfl, rfl, rfl, rfl⟩
  · rw [if_neg h1]
    split <;> exact ⟨rfl, rfl, rfl, rfl⟩

/-- The mode and the field after the form is submitted. -/
theorem Update_submit_mode_field [Float64 F] (now : Time) (m : model F L T) (k : String)
    (hMode : m.mode = modeAdd) (hField : m.field = fieldRate)
    (hKey : k = "enter" ∨ k = "tab") :
    ((Update tk now m (Msg.key k)).1.mode = modeAdd ∨
      (Update tk now m (Msg.key k)).1.mode = modeList) ∧
    (Update tk now m (Msg.key k)).1.field = fieldRate := by
  rw [Update_submit tk now m k hMode hField hKey]
  have hFrame := addEmployeeFromInputs_frame tk m
  split
  · rename_i m2 err hEq
    rw [hEq] at hFrame
    exact ⟨Or.inl (hFrame.1.trans hMode), hFrame.2.1.trans hField⟩
  · rename_i m2 hEq
    rw [hEq] at hFrame
    exact ⟨Or.inr rfl, hFrame.2.1.trans hField⟩

/-- C14: in ConfirmDelete mode the keys n and esc set the mode to List and the
pending delete index to -1 and change nothing else: the state is the former state
with these two fields replaced, so the roster and `nextID` are the same. -/
theorem Update_decline_delete [Float64 F] (now : Time) (m : model F L T) (k : String)
    (hMode : m.mode = modeConfirmDelete) (hKey : k = "n" ∨ k = "esc") :
    (Update tk now m (Msg.key k)).1 = { m with pendingDeleteIdx := -1, mode := modeList } ∧
    (Update tk now m (Msg.key k)).1.employees = m.employees ∧
    (Update tk now m (Msg.key k)).1.nextID = m.nextID := by
  have h : (Update tk now m (Msg.key k)).1 =
      { m with pendingDeleteIdx := -1, mode := modeList } := by
    unfold Update
    simp only [hMode]
    rcases hKey with rfl | rfl
    · rw [if_neg (by decide), if_pos (by decide)]
    · rw [if_neg (by decide), if_pos (by decide)]
  rw [h]
  exact ⟨rfl, rfl, rfl⟩

/-- C14 at Ana Lee with the confirmation pending: the key n returns to the list
with Ana Lee still in the roster. -/
theorem Update_decline_delete_witness :
    (Update refToolkit 0 anaConfirmDelete (Msg.key "n")).1.mode = modeList ∧
    (Update refToolkit 0 anaConfirmDelete (Msg.key "n")).1.pendingDeleteIdx = -1 ∧
    (Update refToolkit 0 anaConfirmDelete (Msg.key "n")).1.employees =
      anaConfirmDelete.employees :=
  have h := Update_decline_delete refToolkit 0 anaConfirmDelete "n" (by decide) (Or.inl rfl)
  ⟨by rw [h.1], by rw [h.1], h.2.1⟩

/-- From AddEmployee mode every key leads to AddEmployee or to List. -/
theorem Update_mode_add [Float64 F] (now : Time) (m : model F L T) (k : String)
    (hMode : m.mode = modeAdd) :
    (Update tk now m (Msg.key k)).1.mode = modeAdd ∨
    (Update tk now m (Msg.key k)).1.mode = modeList := by
  by_cases hEsc : k = "esc"
  · right
    unfold Update
    simp only [hMode]
    rw [if_pos hEsc]
  · by_cases hAdv : k = "enter" ∨ k = "tab"
    · cases hField : m.field with
      | fieldRate => exact (Update_submit_mode_field tk now m k hMode hField hAdv).1
      | fieldFirstName =>
        left
        unfold Update
        simp only [hMode, hField]
        rw [if_neg hEsc, if_pos hAdv]
      | fieldMiddleName =>
        left
        unfold Update
        simp only [hMode, hField]
        rw [if_neg hEsc, if_pos hAdv]
      | fieldLastName =>
        left
        unfold Update
        simp only [hMode, hField]
        rw [if_neg hEsc, if_pos hAdv]
    · left
      unfold Update
      simp only [hMode]
      rw [if_neg hEsc, if_neg hAdv]
      split_ifs <;> split <;> first | rfl | exact hMode

/-- C15: from the modes AddEmployee, ViewSessions and ConfirmDelete every message
leads to the same mode or to List. -/
theorem Update_mode_returns_to_list [Float64 F] (now : Time) (m : model F L T) (msg : Msg)
    (hMode : m.mode = modeAdd ∨ m.mode = modeViewSessions ∨ m.mode = modeConfirmDelete) :
    (Update tk now m msg).1.mode = m.mode ∨ (Update tk now m msg).1.mode = modeList := by
  cases msg with
  | other => exact Or.inl rfl
  | key k =>
    rcases hMode with hMode | hMode | hMode
    · -- AddEmployee
      rw [hMode]
      exact Update_mode_add tk now m k hMode
    · -- ViewSessions
      unfold Update
      simp only [hMode]
      split_ifs
      · exact Or.inr rfl
      · exact Or.inl rfl
    · -- ConfirmDelete
      unfold Update
      simp only [hMode]
      split_ifs
      · exact Or.inr rfl
      · exact Or.inr rfl
      · exact Or.inl hMode

/-- C15 at the form filled with Ana Lee: the key esc leads to List. -/
theorem Update_mode_returns_to_list_witness :
    (Update refToolkit 0 formAnaLee (Msg.key "esc")).1.mode = modeList :=
  (Update_mode_returns_to_list refToolkit 0 formAnaLee (Msg.key "esc")
    (Or.inl (by decide))).elim (fun _ => by decide) (fun h => h)

/-! ### Moving the focus in the form -/

/-- C19: in AddEmployee mode, enter and tab move the focus from the first name to
the middle name, from there to the last name and from there to the rate, and
leave it on the rate when it is there; shift+tab moves it from the rate to the
last name, from there to the middle name and from there to the first name, and
leaves it on the first name when it is there. Enter and tab off the rate field,
and shift+tab on every field, keep the mode AddEmployee and the roster and
`nextID` as they were. -/
theorem Update_focus_moves [Float64 F] (now : Time) (m : model F L T) (k : String)
    (hMode : m.mode = modeAdd) :
    (k = "enter" ∨ k = "tab" →
      (m.field = fieldFirstName → (Update tk now m (Msg.key k)).1.field = fieldMiddleName) ∧
      (m.field = fieldMiddleName → (Update tk now m (Msg.key k)).1.field = fieldLastName) ∧
      (m.field = fieldLastName → (Update tk now m (Msg.key k)).1.field = fieldRate) ∧
      (m.field = fieldRate → (Update tk now m (Msg.key k)).1.field = fieldRate) ∧
      (m.field ≠ fieldRate →
        (Update tk now m (Msg.key k)).1.mode = modeAdd ∧
        (Update tk now m (Msg.key k)).1.employees = m.employees ∧
        (Update tk now m (Msg.key k)).1.nextID = m.nextID)) ∧
    (k = "shift+tab" →
      (m.field = fieldRate → (Update tk now m (Msg.key k)).1.field = fieldLastName) ∧
      (m.field = fieldLastName → (Update tk now m (Msg.key k)).1.field = fieldMiddleName) ∧
      (m.field = fieldMiddleName → (Update tk now m (Msg.key k)).1.field = fieldFirstName) ∧
      (m.field = fieldFirstName → (Update tk now m (Msg.key k)).1.field = fieldFirstName) ∧
      (Update tk now m (Msg.key k)).1.mode = modeAdd ∧
      (Update tk now m (Msg.key k)).1.employees = m.employees ∧
      (Update tk now m (Msg.key k)).1.nextID = m.nextID) := by
  constructor
  · intro hAdv
    have hEsc : ¬ k = "esc" := by
      rcases hAdv with rfl | rfl <;> decide
    cases hField : m.field with
    | fieldRate =>
      refine ⟨by simp, by simp, by simp, fun _ => ?_, fun h => absurd rfl h⟩
      exact (Update_submit_mode_field tk now m k hMode hField hAdv).2
    | fieldFirstName =>
      unfold Update
      simp only [hMode, hField]
      rw [if_neg hEsc, if_pos hAdv]
      simp
    | fieldMiddleName =>
      unfold Update
      simp only [hMode, hField]
      rw [if_neg hEsc, if_pos hAdv]
      simp
    | fieldLastName =>
      unfold Update
      simp only [hMode, hField]
      rw [if_neg hEsc, if_pos hAdv]
      simp
  · intro hRet
    subst hRet
    unfold Update
    simp only [hMode]
    rw [if_neg (by decide), if_neg (by decide), if_pos trivial]
    cases hField : m.field <;> simp [hField, hMode]

/-- C19 at the form filled with Ana Lee, the focus on the rate: shift+tab moves the
focus to the last name and the form stays open. -/
theorem Update_focus_moves_witness :
    (Update refToolkit 0 formAnaLee (Msg.key "shift+tab")).1.field = fieldLastName ∧
    (Update refToolkit 0 formAnaLee (Msg.key "shift+tab")).1.mode = modeAdd :=
  have h := (Update_focus_moves refToolkit 0 formAnaLee "shift+tab" (by decide)).2 rfl
  ⟨h.1 (by decide), h.2.2.2.2.1⟩

/-! ### The indices kept with the mode -/

theorem clockInSelected_mode (now : Time) (m : model F L T) :
    (clockInSelected tk now m).mode = m.mode := by
  unfold clockInSelected
  simp only
  split_ifs
  · rfl
  · split
    · rfl
    · split_ifs <;> rfl

theorem clockOutSelected_mode [Float64 F] (now : Time) (m : model F L T) :
    (clockOutSelected tk now m).mode = m.mode := by
  unfold clockOutSelected
  simp only
  split_ifs
  · rfl
  · split
    · rfl
    · split <;> rfl

/-- The state after `viewSessions` when an employee is selected. -/
theorem viewSessions_of_selected (m : model F L T) (e : Employee F)
    (hSel : 0 ≤ getSelectedIndex tk m)
    (hGet : m.employees[(getSelectedIndex tk m).toNat]? = some e) :
    viewSessions tk m =
      { m with
        selectedEmpIdx := getSelectedIndex tk m
        sessionList := tk.listSetItems m.sessionList (viewSessions.items e.Sessions)
        mode := modeViewSessions } := by
  unfold viewSessions
  simp only [hGet]
  rw [if_neg (by omega)]
  rfl

/-- The state after `viewSessions` when no employee is selected. -/
theorem viewSessions_of_not_selected (m : model F L T) (hSel : getSelectedIndex tk m < 0) :
    viewSessions tk m = { m with err := some "No employee selected." } := by
  unfold viewSessions
  simp only
  rw [if_pos hSel]

theorem getSelectedIndex_getElem (m : model F L T) (hSel : 0 ≤ getSelectedIndex tk m) :
    ∃ e : Employee F, m.employees[(getSelectedIndex tk m).toNat]? = some e :=
  ⟨_, List.getElem?_eq_getElem (getSelectedIndex_lt tk m hSel)⟩

theorem getSelectedIndex_lt_length (m : model F L T) (hSel : 0 ≤ getSelectedIndex tk m) :
    getSelectedIndex tk m < m.employees.length := by
  have h := getSelectedIndex_lt tk m hSel
  omega

/-- A state in List or AddEmployee mode satisfies the mode invariant. -/
theorem modeInv_of_mode (m : model F L T) (h : m.mode = modeList ∨ m.mode = modeAdd) :
    modeInv m := by
  constructor <;> intro hm <;> rw [hm] at h <;> rcases h with h | h <;> cases h

theorem modeInv_of_confirm (m : model F L T) (hMode : m.mode = modeConfirmDelete)
    (h : 0 ≤ m.pendingDeleteIdx ∧ m.pendingDeleteIdx < m.employees.length) : modeInv m := by
  refine ⟨fun _ => h, fun hm => ?_⟩
  rw [hMode] at hm
  cases hm

theorem modeInv_of_view (m : model F L T) (hMode : m.mode = modeViewSessions)
    (h : 0 ≤ m.selectedEmpIdx ∧ m.selectedEmpIdx < m.employees.length) : modeInv m := by
  refine ⟨fun hm => ?_, fun _ => h⟩
  rw [hMode] at hm
  cases hm

theorem Update_modeInv [Float64 F] (now : Time) (m : model F L T) (msg : Msg)
    (hInv : modeInv m) : modeInv (Update tk now m msg).1 := by
  cases msg with
  | other => exact hInv
  | key k =>
    cases hMode : m.mode with
    | modeList =>
      unfold Update
      simp only [hMode]
      split_ifs with h1 h2 h3 h4 h5 h6 h7
      · exact modeInv_of_mode m (Or.inl hMode)
      · exact modeInv_of_mode _ (Or.inr rfl)
      · exact modeInv_of_confirm _ rfl ⟨h4, getSelectedIndex_lt_length tk m h4⟩
      · exact modeInv_of_mode m (Or.inl hMode)
      · exact modeInv_of_mode _ (Or.inl ((clockInSelected_mode tk now m).trans hMode))
      · exact modeInv_of_mode _ (Or.inl ((clockOutSelected_mode tk now m).trans hMode))
      · by_cases hSel : 0 ≤ getSelectedIndex tk m
        · obtain ⟨e, hGet⟩ := getSelectedIndex_getElem tk m hSel
          rw [viewSessions_of_selected tk m e hSel hGet]
          exact modeInv_of_view _ rfl ⟨hSel, getSelectedIndex_lt_length tk m hSel⟩
        · rw [viewSessions_of_not_selected tk m (by omega)]
          exact modeInv_of_mode _ (Or.inl hMode)
      · exact modeInv_of_mode _ (Or.inl rfl)
    | modeViewSessions =>
      unfold Update
      simp only [hMode]
      split_ifs
      · exact modeInv_of_mode _ (Or.inl rfl)
      · exact modeInv_of_view _ rfl (hInv.2 hMode)
    | modeConfirmDelete =>
      unfold Update
      simp only [hMode]
      split_ifs
      · exact modeInv_of_mode _ (Or.inl rfl)
      · exact modeInv_of_mode _ (Or.inl rfl)
      · exact hInv
    | modeAdd =>
      exact modeInv_of_mode _ (Update_mode_add tk now m k hMode).symm

theorem run_modeInv [Float64 F] (m : model F L T) (evs : List (Time × Msg))
    (hInv : modeInv m) : modeInv (run tk m evs) := by
  induction evs generalizing m with
  | nil => exact hInv
  | cons ev rest ih =>
    obtain ⟨now, msg⟩ := ev
    exact ih _ (Update_modeInv tk now m msg hInv)

theorem newModel_modeInv : modeInv (newModel tk) :=
  modeInv_of_mode _ (Or.inl rfl)

/-! ### Confirming a deletion -/

/-- In ConfirmDelete mode the keys y and enter delete at the pending index. -/
theorem Update_confirm [Float64 F] (now : Time) (m : model F L T) (k : String)
    (hMode : m.mode = modeConfirmDelete) (hKey : k = "y" ∨ k = "enter") :
    (Update tk now m (Msg.key k)).1 =
      { deleteByIndex tk m m.pendingDeleteIdx with
        pendingDeleteIdx := -1, lastWageMessage := "", mode := modeList } := by
  unfold Update
  simp only [hMode]
  rw [if_pos hKey]

/-- C13: in every state reached from `newModel` whose mode is ConfirmDelete, the
pending delete index is an index of the roster, and the keys y and enter remove
exactly the employee at that index: the roster has one employee less, the
positions before the index keep their employee and every later position takes
the employee that followed it. The pending index becomes -1, the last wage
message is cleared and the mode becomes List. -/
theorem Update_confirm_delete [Float64 F] (evs : List (Time × Msg)) (now : Time) (k : String)
    (hMode : (run tk (newModel tk) evs).mode = modeConfirmDelete)
    (hKey : k = "y" ∨ k = "enter") :
    (0 ≤ (run tk (newModel tk) evs).pendingDeleteIdx ∧
      (run tk (newModel tk) evs).pendingDeleteIdx <
        (run tk (newModel tk) evs).employees.length) ∧
    (Update tk now (run tk (newModel tk) evs) (Msg.key k)).1.employees =
      (run tk (newModel tk) evs).employees.eraseIdx
        (run tk (newModel tk) evs).pendingDeleteIdx.toNat ∧
    (Update tk now (run tk (newModel tk) evs) (Msg.key k)).1.employees.length + 1 =
      (run tk (newModel tk) evs).employees.length ∧
    (∀ j : Nat, (Update tk now (run tk (newModel tk) evs) (Msg.key k)).1.employees[j]? =
      if (j : Int) < (run tk (newModel tk) evs).pendingDeleteIdx
      then (run tk (newModel tk) evs).employees[j]?
      else (run tk (newModel tk) evs).employees[j + 1]?) ∧
    (Update tk now (run tk (newModel tk) evs) (Msg.key k)).1.pendingDeleteIdx = -1 ∧
    (Update tk now (run tk (newModel tk) evs) (Msg.key k)).1.lastWageMessage = "" ∧
    (Update tk now (run tk (newModel tk) evs) (Msg.key k)).1.mode = modeList := by
  have hIdx := (run_modeInv tk (newModel tk) evs (newModel_modeInv tk)).1 hMode
  generalize run tk (newModel tk) evs = m at hMode hIdx ⊢
  rw [Update_confirm tk now m k hMode hKey]
  have hDel := deleteByIndex_employees tk m m.pendingDeleteIdx hIdx
  refine ⟨hIdx, hDel, ?_, fun j => ?_, rfl, rfl, rfl⟩
  · show (deleteByIndex tk m m.pendingDeleteIdx).employees.length + 1 = _
    rw [hDel]
    exact List.length_eraseIdx_add_one (by omega)
  · show (deleteByIndex tk m m.pendingDeleteIdx).employees[j]? = _
    rw [hDel, List.getElem?_eraseIdx]
    by_cases hj : j < m.pendingDeleteIdx.toNat
    · rw [if_pos hj, if_pos (by omega)]
    · rw [if_neg hj, if_neg (by omega)]

/-- C13 at Ana Lee with the confirmation pending: the key y empties the roster and
returns to the list. -/
theorem Update_confirm_delete_witness :
    anaConfirmDelete.pendingDeleteIdx = 0 ∧
    (Update refToolkit 0 anaConfirmDelete (Msg.key "y")).1.employees = [] ∧
    (Update refToolkit 0 anaConfirmDelete (Msg.key "y")).1.pendingDeleteIdx = -1 ∧
    (Update refToolkit 0 anaConfirmDelete (Msg.key "y")).1.mode = modeList := by
  have h := Update_confirm_delete refToolkit
    (fillForm "Ana" "Lee" "20" ++ [(0, Msg.key "enter"), (0, Msg.key "d")]) 0 "y"
    (by decide) (Or.inl rfl)
  exact ⟨by decide, h.2.1, h.2.2.2.2.1, h.2.2.2.2.2.2⟩

/-! ### Leaving the session history -/

/-- The text `View` draws outside ViewSessions mode does not depend on the
selected-employee index. -/
theorem View_selectedEmpIdx [Float64 F] (rd : Renderer L T) (m : model F L T) (i : Int)
    (hMode : m.mode ≠ modeViewSessions) :
    (View rd { m with selectedEmpIdx := i }).1 = (View rd m).1 := by
  unfold View
  cases hm : m.mode with
  | modeViewSessions => exact absurd hm hMode
  | modeList => simp only [hm]
  | modeAdd => simp only [hm]
  | modeConfirmDelete => simp only [hm]

/-- C16, as the code has it: in every state reached from `newModel` whose mode is
ViewSessions, the selected-employee index is an index of the roster, and the keys
esc and q set the mode to List and change nothing else, so the selected-employee
index keeps its value; the text drawn in the state left does not depend on it. -/
theorem Update_back_keeps_selected [Float64 F] (evs : List (Time × Msg)) (now : Time)
    (k : String) (hMode : (run tk (newModel tk) evs).mode = modeViewSessions)
    (hKey : k = "esc" ∨ k = "q") :
    (0 ≤ (run tk (newModel tk) evs).selectedEmpIdx ∧
      (run tk (newModel tk) evs).selectedEmpIdx <
        (run tk (newModel tk) evs).employees.length) ∧
    (Update tk now (run tk (newModel tk) evs) (Msg.key k)).1 =
      { run tk (newModel tk) evs with mode := modeList } ∧
    (Update tk now (run tk (newModel tk) evs) (Msg.key k)).1.selectedEmpIdx =
      (run tk (newModel tk) evs).selectedEmpIdx ∧
    (∀ (rd : Renderer L T) (i : Int),
      (View rd { (Update tk now (run tk (newModel tk) evs) (Msg.key k)).1 with
        selectedEmpIdx := i }).1 =
      (View rd (Update tk now (run tk (newModel tk) evs) (Msg.key k)).1).1) := by
  have hIdx := (run_modeInv tk (newModel tk) evs (newModel_modeInv tk)).2 hMode
  generalize run tk (newModel tk) evs = m at hMode hIdx ⊢
  have h : (Update tk now m (Msg.key k)).1 = { m with mode := modeList } := by
    unfold Update
    simp only [hMode]
    rw [if_pos hKey]
  rw [h]
  exact ⟨hIdx, rfl, rfl, fun rd i => View_selectedEmpIdx rd _ i (by simp)⟩

/-- C16 amended, at Ana Lee with her sessions open: esc returns to the list and
the selected-employee index is still 0. -/
theorem Update_back_keeps_selected_witness :
    (Update refToolkit 0 anaViewed (Msg.key "esc")).1.mode = modeList ∧
    (Update refToolkit 0 anaViewed (Msg.key "esc")).1.selectedEmpIdx =
      anaViewed.selectedEmpIdx := by
  have h := Update_back_keeps_selected refToolkit
    (fillForm "Ana" "Lee" "20" ++ [(0, Msg.key "enter"), (0, Msg.key "v")]) 0 "esc"
    (by decide) (Or.inl rfl)
  exact ⟨by decide, h.2.2.1⟩

/-- C16 as stated fails: after Ana Lee is added, her sessions opened with v and
left with esc, the mode is List and the selected-employee index is 0, not -1. -/
theorem selectedEmpIdx_not_reset :
    anaViewed.mode = modeViewSessions ∧
    (Update refToolkit 0 anaViewed (Msg.key "esc")).1.mode = modeList ∧
    (Update refToolkit 0 anaViewed (Msg.key "esc")).1.selectedEmpIdx = 0 := by
  decide

/-! ### Sessions are only appended -/

theorem sessionsKept_of_sublist (before after : List (Employee F)) (nextID : Int)
    (h : List.Sublist after before) : sessionsKept before nextID after :=
  fun e2 h2 => Or.inl ⟨e2, h.subset h2, rfl, List.prefix_refl _⟩

theorem sessionsKept_refl (l : List (Employee F)) (nextID : Int) : sessionsKept l nextID l :=
  sessionsKept_of_sublist l l nextID (List.Sublist.refl _)

/-- Writing at an index an employee with the same ID whose sessions start with the
former ones keeps the sessions. -/
theorem sessionsKept_set (l : List (Employee F)) (nextID : Int) (i : Nat) (e e2 : Employee F)
    (hGet : l[i]? = some e) (hID : e.ID = e2.ID) (hSessions : e.Sessions <+: e2.Sessions) :
    sessionsKept l nextID (l.set i e2) := by
  intro e3 h3
  rcases List.mem_or_eq_of_mem_set h3 with h | h
  · exact Or.inl ⟨e3, h, rfl, List.prefix_refl _⟩
  · subst h
    exact Or.inl ⟨e, List.getElem?_mem hGet, hID, hSessions⟩

theorem clockInSelected_sessionsKept (now : Time) (m : model F L T) :
    sessionsKept m.employees m.nextID (clockInSelected tk now m).employees := by
  unfold clockInSelected
  simp only
  split_ifs with h1
  · exact sessionsKept_refl _ _
  · split
    · exact sessionsKept_refl _ _
    · rename_i e hGet
      split_ifs
      · exact sessionsKept_refl _ _
      · exact sessionsKept_set _ _ _ e _ hGet rfl (List.prefix_refl _)

theorem clockOutSelected_sessionsKept [Float64 F] (now : Time) (m : model F L T) :
    sessionsKept m.employees m.nextID (clockOutSelected tk now m).employees := by
  unfold clockOutSelected
  simp only
  split_ifs with h1
  · exact sessionsKept_refl _ _
  · split
    · exact sessionsKept_refl _ _
    · rename_i e hGet
      split
      · exact sessionsKept_refl _ _
      · exact sessionsKept_set _ _ _ e _ hGet rfl (List.prefix_append _ _)

/-- One message keeps the sessions of the roster. -/
theorem Update_sessionsKept [Float64 F] (now : Time) (m : model F L T) (msg : Msg) :
    sessionsKept m.employees m.nextID (Update tk now m msg).1.employees := by
  cases msg with
  | other => exact sessionsKept_refl _ _
  | key k =>
    unfold Update
    simp only
    split
    · -- modeList
      split_ifs
      · exact sessionsKept_refl _ _
      · exact sessionsKept_refl _ _
      · exact sessionsKept_refl _ _
      · exact sessionsKept_refl _ _
      · exact clockInSelected_sessionsKept tk now m
      · exact clockOutSelected_sessionsKept tk now m
      · rw [(viewSessions_roster tk m).1]
        exact sessionsKept_refl _ _
      · exact sessionsKept_refl _ _
    · -- modeViewSessions
      split_ifs <;> exact sessionsKept_refl _ _
    · -- modeConfirmDelete
      split_ifs
      · exact sessionsKept_of_sublist _ _ _ (deleteByIndex_sublist tk m m.pendingDeleteIdx)
      · exact sessionsKept_refl _ _
      · exact sessionsKept_refl _ _
    · -- modeAdd
      split_ifs
      · exact sessionsKept_refl _ _
      · split
        · exact sessionsKept_refl _ _
        · exact sessionsKept_refl _ _
        · exact sessionsKept_refl _ _
        · rcases addEmployeeFromInputs_cases tk m with ⟨h1, h2⟩ | ⟨h1, _, e, h3, h4⟩
          · split
            · rename_i m2 err hEq
              rw [hEq] at h1
              simp only at h1
              subst h1
              exact sessionsKept_refl _ _
            · rename_i m2 hEq
              rw [hEq] at h2
              exact absurd rfl h2
          · split
            · rename_i m2 err hEq
              rw [hEq] at h1
              simp at h1
            · rename_i m2 hEq
              rw [hEq] at h4
              simp only at h4
              intro e2 h2
              rw [show m2.employees = m.employees ++ [e] from h4, List.mem_append,
                List.mem_singleton] at h2
              rcases h2 with h2 | h2
              · exact Or.inl ⟨e2, h2, rfl, List.prefix_refl _⟩
              · exact Or.inr (h2 ▸ h3)
      · split <;> exact sessionsKept_refl _ _
      · split <;> exact sessionsKept_refl _ _

/-- In a roster with distinct IDs that does not hold the ID `nextID`, one message
leaves every employee that stays in the roster, found by its ID, with sessions
that start with its former sessions. -/
theorem Update_sessions_of_distinct [Float64 F] (now : Time) (m : model F L T) (msg : Msg)
    (hNodup : (rosterIDs m).Nodup) (hFresh : m.nextID ∉ rosterIDs m)
    (e : Employee F) (he : e ∈ m.employees) (e2 : Employee F)
    (he2 : e2 ∈ (Update tk now m msg).1.employees) (hID : e2.ID = e.ID) :
    e.Sessions <+: e2.Sessions := by
  rcases Update_sessionsKept tk now m msg e2 he2 with ⟨e0, he0, hID0, hPre⟩ | hNew
  · have hEq : e0 = e :=
      List.inj_on_of_nodup_map hNodup he0 he (hID0.trans hID)
    rw [← hEq]
    exact hPre
  · exfalso
    apply hFresh
    rw [← hNew, hID]
    exact List.mem_map_of_mem _ he

theorem rosterStep_refl (l : List (Employee F)) : rosterStep l l := by
  refine Or.inl ⟨rfl, fun j e e2 h1 h2 => ?_⟩
  rw [h1] at h2
  cases h2
  exact ⟨rfl, List.prefix_refl _⟩

theorem rosterStep_of_eq (before after : List (Employee F)) (h : after = before) :
    rosterStep before after := by
  rw [h]
  exact rosterStep_refl before

theorem rosterStep_set (l : List (Employee F)) (i : Nat) (e0 e1 : Employee F)
    (hGet : l[i]? = some e0) (hID : e1.ID = e0.ID) (hSessions : e0.Sessions <+: e1.Sessions) :
    rosterStep l (l.set i e1) := by
  refine Or.inl ⟨List.length_set _ _ _, fun j e e2 h1 h2 => ?_⟩
  by_cases hj : i = j
  · subst hj
    rw [hGet] at h1
    cases h1
    have hLt : i < l.length := (List.getElem?_eq_some.mp hGet).1
    rw [List.getElem?_set_self hLt] at h2
    cases h2
    exact ⟨hID, hSessions⟩
  · rw [List.getElem?_set_ne hj, h1] at h2
    cases h2
    exact ⟨rfl, List.prefix_refl _⟩

theorem clockInSelected_rosterStep (now : Time) (m : model F L T) :
    rosterStep m.employees (clockInSelected tk now m).employees := by
  unfold clockInSelected
  simp only
  split_ifs with h1
  · exact rosterStep_refl _
  · split
    · exact rosterStep_refl _
    · rename_i e hGet
      split_ifs
      · exact rosterStep_refl _
      · exact rosterStep_set _ _ e _ hGet rfl (List.prefix_refl _)

theorem clockOutSelected_rosterStep [Float64 F] (now : Time) (m : model F L T) :
    rosterStep m.employees (clockOutSelected tk now m).employees := by
  unfold clockOutSelected
  simp only
  split_ifs with h1
  · exact rosterStep_refl _
  · split
    · exact rosterStep_refl _
    · rename_i e hGet
      split
      · exact rosterStep_refl _
      · exact rosterStep_set _ _ e _ hGet rfl (List.prefix_append _ _)

theorem deleteByIndex_rosterStep (m : model F L T) (idx : Int) :
    rosterStep m.employees (deleteByIndex tk m idx).employees := by
  by_cases h : 0 ≤ idx ∧ idx < m.employees.length
  · rw [deleteByIndex_employees tk m idx h]
    exact Or.inr (Or.inl ⟨idx.toNat, by omega, rfl⟩)
  · unfold deleteByIndex
    rw [if_pos (by omega)]
    exact rosterStep_refl _

/-- The roster after `addEmployeeFromInputs`: as it was, or with one employee with
no session appended. -/
theorem addEmployeeFromInputs_rosterStep [Float64 F] (m : model F L T) :
    rosterStep m.employees (addEmployeeFromInputs tk m).1.employees := by
  unfold addEmployeeFromInputs
  dsimp only
  by_cases h1 : trimSpace (tk.inputValue m.firstName) = "" ∨
      trimSpace (tk.inputValue m.lastName) = "" ∨ trimSpace (tk.inputValue m.rate) = ""
  · rw [if_pos h1]
    exact rosterStep_refl _
  · rw [if_neg h1]
    split
    · exact rosterStep_refl _
    · exact Or.inr (Or.inr ⟨_, rfl, rfl⟩)

theorem Update_submit_employees [Float64 F] (now : Time) (m : model F L T) (k : String)
    (hMode : m.mode = modeAdd) (hField : m.field = fieldRate)
    (hKey : k = "enter" ∨ k = "tab") :
    (Update tk now m (Msg.key k)).1.employees = (addEmployeeFromInputs tk m).1.employees := by
  rw [Update_submit tk now m k hMode hField hKey]
  split <;> (rename_i hEq; rw [hEq])

/-- One message changes the roster by one `rosterStep`. -/
theorem Update_rosterStep [Float64 F] (now : Time) (m : model F L T) (msg : Msg) :
    rosterStep m.employees (Update tk now m msg).1.employees := by
  cases msg with
  | other => exact rosterStep_refl _
  | key k =>
    cases hMode : m.mode with
    | modeList =>
      unfold Update
      simp only [hMode]
      split_ifs
      · exact rosterStep_refl _
      · exact rosterStep_refl _
      · exact rosterStep_refl _
      · exact rosterStep_refl _
      · exact clockInSelected_rosterStep tk now m
      · exact clockOutSelected_rosterStep tk now m
      · exact rosterStep_of_eq _ _ (viewSessions_roster tk m).1
      · exact rosterStep_refl _
    | modeViewSessions =>
      unfold Update
      simp only [hMode]
      split_ifs <;> exact rosterStep_refl _
    | modeConfirmDelete =>
      unfold Update
      simp only [hMode]
      split_ifs
      · exact deleteByIndex_rosterStep tk m m.pendingDeleteIdx
      · exact rosterStep_refl _
      · exact rosterStep_refl _
    | modeAdd =>
      by_cases hAdv : k = "enter" ∨ k = "tab"
      · cases hField : m.field with
        | fieldRate =>
          rw [Update_submit_employees tk now m k hMode hField hAdv]
          exact addEmployeeFromInputs_rosterStep tk m
        | fieldFirstName =>
          unfold Update
          simp only [hMode, hField]
          split_ifs <;> exact rosterStep_refl _
        | fieldMiddleName =>
          unfold Update
          simp only [hMode, hField]
          split_ifs <;> exact rosterStep_refl _
        | fieldLastName =>
          unfold Update
          simp only [hMode, hField]
          split_ifs <;> exact rosterStep_refl _
      · unfold Update
        simp only [hMode]
        split_ifs
        · exact rosterStep_refl _
        · split <;> exact rosterStep_refl _
        · split <;> exact rosterStep_refl _

/-- C11: for every state and every message processed by `Update`, the roster
changes by one `rosterStep`: position by position every employee that stays has
its former sessions as the beginning of its sessions, an employee that is
removed takes no session of the others with it, and an appended employee has no
session. When the IDs of the roster are pairwise distinct and `nextID` is not one
of them, every employee of the roster that is still in the roster after the
message, found by its ID, has its former sessions as the beginning of its
sessions; this is so in every state reached from `newModel` by messages before
each of which `nextID` is below the largest `int`. -/
theorem sessions_append_only [Float64 F] (now : Time) (m : model F L T) (msg : Msg)
    (evs : List (Time × Msg)) :
    rosterStep m.employees (Update tk now m msg).1.employees ∧
    ((rosterIDs m).Nodup → m.nextID ∉ rosterIDs m →
      ∀ e ∈ m.employees, ∀ e2 ∈ (Update tk now m msg).1.employees,
        e2.ID = e.ID → e.Sessions <+: e2.Sessions) ∧
    (staysBelowMax tk (newModel tk) evs = true →
      ∀ e ∈ (run tk (newModel tk) evs).employees,
        ∀ e2 ∈ (Update tk now (run tk (newModel tk) evs) msg).1.employees,
          e2.ID = e.ID → e.Sessions <+: e2.Sessions) := by
  refine ⟨Update_rosterStep tk now m msg, fun hNodup hFresh e he e2 he2 hID =>
    Update_sessions_of_distinct tk now m msg hNodup hFresh e he e2 he2 hID,
    fun hBelow e he e2 he2 hID => ?_⟩
  have hInv := run_rosterInv tk (newModel tk) evs (newModel_rosterInv tk) hBelow
  refine Update_sessions_of_distinct tk now _ msg hInv.2.1 (fun hMem => ?_) e he e2 he2 hID
  have := (hInv.2.2 _ hMem).2
  omega

/-- C11 at Ana Lee with one session, clocking out of her second shift at 19:00:
she is in the roster before and after the key o, and her one former session is
the beginning of her two sessions. -/
theorem sessions_append_only_witness :
    anaOneSession ∈ anaSecondShift.employees ∧
    anaTwoSessions ∈ (Update refToolkit (19 * Hour) anaSecondShift (Msg.key "o")).1.employees ∧
    anaOneSession.Sessions <+: anaTwoSessions.Sessions := by
  have h1 : anaOneSession ∈ anaSecondShift.employees := by
    rw [show anaSecondShift.employees = [anaOneSession] from by with_unfolding_all rfl]
    exact List.mem_singleton_self _
  have h2 : anaTwoSessions ∈
      (Update refToolkit (19 * Hour) anaSecondShift (Msg.key "o")).1.employees := by
    rw [show (Update refToolkit (19 * Hour) anaSecondShift (Msg.key "o")).1.employees =
      [anaTwoSessions] from by with_unfolding_all rfl]
    exact List.mem_singleton_self _
  exact ⟨h1, h2, (sessions_append_only refToolkit (19 * Hour) anaSecondShift (Msg.key "o")
    []).2.1 (by decide) (by decide) anaOneSession h1 anaTwoSessions h2 rfl⟩

/-! ### The session history list -/

theorem viewSessions.loop_length (n : Int) (sessions : List (Session F)) (i : Int)
    (items : List (Item F)) :
    (viewSessions.loop n sessions i items).length = items.length := by
  induction sessions generalizing i items with
  | nil => rfl
  | cons s rest ih =>
    unfold viewSessions.loop
    rw [ih, List.length_set]

/-- The loop of `viewSessions` started at position `i` on the sessions from `i` on,
in a list of `n` items: position `k` is overwritten when `k` is less than the
number of sessions left, with the session counted `k` from the last and the
number `k + 1`. -/
theorem viewSessions.loop_getElem (n : Nat) (rest : List (Session F)) (i : Nat)
    (items : List (Item F)) (hLen : items.length = n) (hi : i + rest.length = n) (k : Nat) :
    (viewSessions.loop (n : Int) rest (i : Int) items)[k]? =
      if k < rest.length then
        (rest[rest.length - 1 - k]?).map
          (fun s => Item.session { Session := s, SessionNum := (k : Int) + 1 })
      else items[k]? := by
  induction rest generalizing i items with
  | nil => simp [viewSessions.loop]
  | cons s rest ih =>
    unfold viewSessions.loop
    simp only [List.length_cons] at hi ⊢
    have hPos : ((n : Int) - 1 - (i : Int)).toNat = rest.length := by omega
    have hNum : (n : Int) - (i : Int) = (rest.length : Int) + 1 := by omega
    have hCast : (i : Int) + 1 = ((i + 1 : Nat) : Int) := by push_cast; rfl
    rw [hPos, hNum, hCast, ih (i + 1) _ (by rw [List.length_set]; exact hLen) (by omega)]
    by_cases h1 : k < rest.length
    · rw [if_pos h1, if_pos (by omega)]
      have h2 : rest.length + 1 - 1 - k = (rest.length - 1 - k) + 1 := by omega
      rw [h2, List.getElem?_cons_succ]
    · rw [if_neg h1]
      by_cases h2 : k = rest.length
      · subst h2
        rw [if_pos (by omega), List.getElem?_set_self (by omega)]
        simp
      · rw [if_neg (by omega), List.getElem?_set_ne (by omega)]

/-- The items built for `n` sessions: `n` of them, the one at position `k` holding
the session at index `n - 1 - k` with the number `k + 1`. -/
theorem viewSessions.items_getElem (sessions : List (Session F)) :
    (viewSessions.items sessions).length = sessions.length ∧
    ∀ k : Nat, k < sessions.length →
      ∃ s : Session F, sessions[sessions.length - 1 - k]? = some s ∧
        (viewSessions.items sessions)[k]? =
          some (Item.session { Session := s, SessionNum := (k : Int) + 1 }) := by
  constructor
  · unfold viewSessions.items
    rw [viewSessions.loop_length, List.length_replicate]
  · intro k hk
    have hIdx : sessions.length - 1 - k < sessions.length := by omega
    refine ⟨sessions[sessions.length - 1 - k], List.getElem?_eq_getElem hIdx, ?_⟩
    unfold viewSessions.items
    have h := viewSessions.loop_getElem sessions.length sessions 0
      (List.replicate sessions.length Item.nil) (List.length_replicate _ _) (by omega) k
    simp only [Nat.cast_zero] at h
    rw [h, if_pos hk, List.getElem?_eq_getElem hIdx]
    rfl

/-- C12, as the code has it: for the selected employee with `n` sessions,
`viewSessions` sets the mode to ViewSessions, records the selected index and
hands the session list `n` items in reverse chronological order: the item at
position `k` holds the session at index `n - 1 - k` and carries the number
`k + 1`, so the most recent session is numbered 1. -/
theorem viewSessions_items [Float64 F] (m : model F L T) (e : Employee F)
    (hSel : 0 ≤ getSelectedIndex tk m)
    (hGet : m.employees[(getSelectedIndex tk m).toNat]? = some e) :
    viewSessions tk m =
      { m with
        selectedEmpIdx := getSelectedIndex tk m
        sessionList := tk.listSetItems m.sessionList (viewSessions.items e.Sessions)
        mode := modeViewSessions } ∧
    (viewSessions tk m).mode = modeViewSessions ∧
    (viewSessions.items e.Sessions).length = e.Sessions.length ∧
    ∀ k : Nat, k < e.Sessions.length →
      ∃ s : Session F, e.Sessions[e.Sessions.length - 1 - k]? = some s ∧
        (viewSessions.items e.Sessions)[k]? =
          some (Item.session { Session := s, SessionNum := (k : Int) + 1 }) := by
  have h := viewSessions_of_selected tk m e hSel hGet
  refine ⟨h, by rw [h], ?_⟩
  exact viewSessions.items_getElem e.Sessions

/-- C12 amended, at Ana Lee with three sessions: `viewSessions` opens the session
history with three items. -/
theorem viewSessions_items_witness :
    (viewSessions refToolkit anaThreeSessions).mode = modeViewSessions ∧
    (viewSessions refToolkit anaThreeSessions).selectedEmpIdx = 0 ∧
    (viewSessions.items threeSessions).length = 3 := by
  have h := viewSessions_items refToolkit anaThreeSessions
    { ID := 1, FirstName := "Ana", MiddleName := "", LastName := "Lee", HourlyRate := 20,
      CurrentClockIn := Option.none, Sessions := threeSessions }
    (by decide) (by with_unfolding_all rfl)
  exact ⟨h.2.1, by rw [h.1]; rfl, h.2.2.1⟩

/-- C12 as stated fails: the selected employee has the three sessions of
`threeSessions`, and the items built for them carry the numbers 1, 2, 3 from the
first position on, not 3, 2, 1: the most recent session, shown first, is
numbered 1. -/
theorem session_numbers_ascend :
    anaThreeSessions.employees.map Employee.Sessions = [threeSessions] ∧
    getSelectedIndex refToolkit anaThreeSessions = 0 ∧
    viewSessions.items threeSessions =
      ([Item.session
         { Session := { ClockInAt := 13 * Hour, ClockOutAt := 14 * Hour, Wage := 20 },
           SessionNum := 1 },
       Item.session
         { Session := { ClockInAt := 11 * Hour, ClockOutAt := 12 * Hour, Wage := 20 },
           SessionNum := 2 },
       Item.session
         { Session := { ClockInAt := 9 * Hour, ClockOutAt := 10 * Hour, Wage := 20 },
           SessionNum := 3 }] : List (Item ℚ)) := by
  refine ⟨by with_unfolding_all rfl, by decide, by with_unfolding_all rfl⟩

/-! ### Drawing the screen -/

/-- The state `View` leaves: the error is nil, the rest is as it was. -/
theorem View_state [Float64 F] (rd : Renderer L T) (m : model F L T) :
    (View rd m).2 = { m with err := Option.none } := rfl

/-- The list screen: the title, the list, the help line, then the error if there
is one, then the last wage message if there is one. -/
theorem View_list [Float64 F] (rd : Renderer L T) (m : model F L T)
    (hMode : m.mode = modeList) :
    (View rd m).1 =
      rd.titleStyle "Employee Management System" ++ "\n\n" ++ rd.listView m.list ++
        ((rd.helpStyle listHelp ++
            (match m.err with
             | some err => "\n" ++ rd.errStyle err
             | Option.none => "")) ++
          (if m.lastWageMessage ≠ "" then "\n" ++ rd.titleStyle m.lastWageMessage else "")) ++
        "\n" := by
  unfold View
  simp only [hMode, listHelp]
  cases m.err <;> by_cases hW : m.lastWageMessage = "" <;>
    simp [hW, String.append_assoc]

/-- In List mode the key a opens the form, empties its fields and clears the last
wage message. -/
theorem Update_add_key [Float64 F] (now : Time) (m : model F L T)
    (hMode : m.mode = modeList) :
    (Update tk now m (Msg.key "a")).1 =
      { m with
        lastWageMessage := ""
        mode := modeAdd
        field := fieldFirstName
        firstName := tk.inputFocus (tk.inputSetValue m.firstName "")
        middleName := tk.inputBlur (tk.inputSetValue m.middleName "")
        lastName := tk.inputBlur (tk.inputSetValue m.lastName "")
        rate := tk.inputBlur (tk.inputSetValue m.rate "") } := by
  unfold Update
  simp only [hMode]
  rw [if_neg (by decide), if_pos (by decide)]

/-- C17, as the code has it: after `View`, in every mode, the last error is nil and
the rest of the state, the last wage message included, is what it was. On the
list screen the first drawing shows the error and the last wage message, each on
a line of its own, and a second drawing with no message in between shows the
last wage message again and no error. The last wage message is cleared by
`Update` instead: in List mode by the keys a and i, and in ConfirmDelete mode by
the keys y and enter. -/
theorem View_clears_error_only [Float64 F] (rd : Renderer L T) (now : Time)
    (m : model F L T) :
    (View rd m).2 = { m with err := Option.none } ∧
    (View rd m).2.err = Option.none ∧
    (View rd m).2.lastWageMessage = m.lastWageMessage ∧
    (View rd m).2.mode = m.mode ∧
    (m.mode = modeList →
      (∀ err : String, m.err = some err → m.lastWageMessage ≠ "" →
        (View rd m).1 =
          rd.titleStyle "Employee Management System" ++ "\n\n" ++ rd.listView m.list ++
            ((rd.helpStyle listHelp ++ ("\n" ++ rd.errStyle err)) ++
              ("\n" ++ rd.titleStyle m.lastWageMessage)) ++ "\n") ∧
      (m.lastWageMessage ≠ "" →
        (View rd (View rd m).2).1 =
          rd.titleStyle "Employee Management System" ++ "\n\n" ++ rd.listView m.list ++
            ((rd.helpStyle listHelp ++ "") ++ ("\n" ++ rd.titleStyle m.lastWageMessage)) ++ "\n") ∧
      (m.lastWageMessage = "" →
        (View rd (View rd m).2).1 =
          rd.titleStyle "Employee Management System" ++ "\n\n" ++ rd.listView m.list ++
            ((rd.helpStyle listHelp ++ "") ++ "") ++ "\n")) ∧
    (m.mode = modeList →
      (Update tk now m (Msg.key "a")).1.lastWageMessage = "" ∧
      (Update tk now m (Msg.key "i")).1.lastWageMessage = "") ∧
    (m.mode = modeConfirmDelete →
      (Update tk now m (Msg.key "y")).1.lastWageMessage = "" ∧
      (Update tk now m (Msg.key "enter")).1.lastWageMessage = "") := by
  refine ⟨rfl, rfl, rfl, rfl, fun hMode => ⟨fun err hErr hW => ?_, fun hW => ?_, fun hW => ?_⟩,
    fun hMode => ⟨?_, ?_⟩, fun hMode => ⟨?_, ?_⟩⟩
  · rw [View_list rd m hMode, hErr, if_pos hW]
  · rw [View_state, View_list rd { m with err := Option.none } hMode]
    simp only
    rw [if_pos hW]
  · rw [View_state, View_list rd { m with err := Option.none } hMode]
    simp only
    rw [if_neg (not_not.mpr hW)]
  · rw [Update_add_key tk now m hMode]
  · rw [Update_clockIn tk now m hMode]
  · rw [Update_confirm tk now m "y" hMode (Or.inl rfl)]
  · rw [Update_confirm tk now m "enter" hMode (Or.inr rfl)]

/-- C17 amended, at Ana Lee who has just clocked out: the keys a and i clear the
last wage message that `View` leaves. -/
theorem View_clears_error_only_witness :
    (View refRenderer anaClockedOut).2.lastWageMessage = anaClockedOut.lastWageMessage ∧
    (Update refToolkit 0 anaClockedOut (Msg.key "a")).1.lastWageMessage = "" ∧
    (Update refToolkit 0 anaClockedOut (Msg.key "i")).1.lastWageMessage = "" :=
  have h := View_clears_error_only refToolkit refRenderer 0 anaClockedOut
  ⟨h.2.2.1, (h.2.2.2.2.2.1 (by decide)).1, (h.2.2.2.2.2.1 (by decide)).2⟩

/-- C17 as stated fails: Ana Lee has just clocked out; after `View` the last wage
message is still set, and a second drawing shows it again. -/
theorem wage_message_survives_View :
    anaClockedOut.lastWageMessage = "Ana Lee clocked out â€” Session wage: $160.00" ∧
    (View refRenderer anaClockedOut).2.lastWageMessage =
      "Ana Lee clocked out â€” Session wage: $160.00" ∧
    (View refRenderer (View refRenderer anaClockedOut).2).1 =
      "Employee Management System\n\n0" ++ listHelp ++
        "\nAna Lee clocked out â€” Session wage: $160.00\n" := by
  refine ⟨?_, ?_, ?_⟩ <;> decide!

/-! ### Commands with nothing selected -/

theorem clockInSelected_of_not_selected (now : Time) (m : model F L T)
    (hSel : getSelectedIndex tk m < 0) : clockInSelected tk now m = m := by
  unfold clockInSelected
  simp only
  rw [if_pos hSel]

theorem clockOutSelected_of_not_selected [Float64 F] (now : Time) (m : model F L T)
    (hSel : getSelectedIndex tk m < 0) : clockOutSelected tk now m = m := by
  unfold clockOutSelected
  simp only
  rw [if_pos hSel]

/-- In List mode the key d asks to confirm when an employee is selected and does
nothing otherwise. -/
theorem Update_delete_key [Float64 F] (now : Time) (m : model F L T)
    (hMode : m.mode = modeList) :
    (Update tk now m (Msg.key "d")).1 =
      if getSelectedIndex tk m ≥ 0 then
        { m with pendingDeleteIdx := getSelectedIndex tk m, mode := modeConfirmDelete }
      else m := by
  unfold Update
  simp only [hMode]
  rw [if_neg (by decide), if_neg (by decide), if_pos (by decide)]
  split_ifs <;> rfl

/-- In List mode the key v opens the session history. -/
theorem Update_view_key [Float64 F] (now : Time) (m : model F L T)
    (hMode : m.mode = modeList) :
    (Update tk now m (Msg.key "v")).1 = viewSessions tk m := by
  unfold Update
  simp only [hMode]
  rw [if_neg (by decide), if_neg (by decide), if_neg (by decide), if_neg (by decide),
    if_neg (by decide), if_pos (by decide)]

/-- C18, as the code has it: in List mode with no valid selection, the keys d, i, o
and v each leave the mode List and the roster and `nextID` as they were. The key
v sets the error "No employee selected.", which `View` then draws on a line of
its own after the help line; the keys d and o leave the whole state as it was and
the key i only clears the last wage message, so these three set no error. -/
theorem Update_no_selection [Float64 F] (now : Time) (m : model F L T)
    (hMode : m.mode = modeList) (hSel : getSelectedIndex tk m < 0) :
    (∀ k : String, k = "d" ∨ k = "i" ∨ k = "o" ∨ k = "v" →
      (Update tk now m (Msg.key k)).1.mode = modeList ∧
      (Update tk now m (Msg.key k)).1.employees = m.employees ∧
      (Update tk now m (Msg.key k)).1.nextID = m.nextID) ∧
    (Update tk now m (Msg.key "v")).1 = { m with err := some "No employee selected." } ∧
    (∀ rd : Renderer L T, (View rd (Update tk now m (Msg.key "v")).1).1 =
      rd.titleStyle "Employee Management System" ++ "\n\n" ++ rd.listView m.list ++
        ((rd.helpStyle listHelp ++ ("\n" ++ rd.errStyle "No employee selected.")) ++
          (if m.lastWageMessage ≠ "" then "\n" ++ rd.titleStyle m.lastWageMessage else "")) ++
        "\n") ∧
    (Update tk now m (Msg.key "d")).1 = m ∧
    (Update tk now m (Msg.key "o")).1 = m ∧
    (Update tk now m (Msg.key "i")).1 = { m with lastWageMessage := "" } := by
  have hD : (Update tk now m (Msg.key "d")).1 = m := by
    rw [Update_delete_key tk now m hMode, if_neg (by omega)]
  have hI : (Update tk now m (Msg.key "i")).1 = { m with lastWageMessage := "" } := by
    rw [Update_clockIn tk now m hMode, clockInSelected_of_not_selected tk now m hSel]
  have hO : (Update tk now m (Msg.key "o")).1 = m := by
    rw [Update_clockOut tk now m hMode, clockOutSelected_of_not_selected tk now m hSel]
  have hV : (Update tk now m (Msg.key "v")).1 =
      { m with err := some "No employee selected." } := by
    rw [Update_view_key tk now m hMode, viewSessions_of_not_selected tk m hSel]
  refine ⟨fun k hk => ?_, hV, fun rd => ?_, hD, hO, hI⟩
  · rcases hk with rfl | rfl | rfl | rfl
    · rw [hD]
      exact ⟨hMode, rfl, rfl⟩
    · rw [hI]
      exact ⟨hMode, rfl, rfl⟩
    · rw [hO]
      exact ⟨hMode, rfl, rfl⟩
    · rw [hV]
      exact ⟨hMode, rfl, rfl⟩
  · rw [hV, View_list rd { m with err := some "No employee selected." } hMode]

/-- C18 amended, at the initial state, whose roster is empty: the key v sets the
error and the screen shows it under the help line. -/
theorem Update_no_selection_witness :
    (Update refToolkit 0 (newModel refToolkit) (Msg.key "v")).1.err =
      some "No employee selected." ∧
    (View refRenderer (Update refToolkit 0 (newModel refToolkit) (Msg.key "v")).1).1 =
      "Employee Management System" ++ "\n\n" ++ "0" ++
        (("\n[a] add  [d] delete  [i] clock in  [o] clock out  [v] view sessions  [q] quit" ++
          ("\n" ++ "No employee selected.")) ++ "") ++ "\n" := by
  have h := Update_no_selection refToolkit 0 (newModel refToolkit) (by decide) (by decide)
  exact ⟨by rw [h.2.1], h.2.2.1 refRenderer⟩

/-- C18 as stated fails: in the initial state the roster is empty, nothing is
selected, and after each of the keys d, i and o the error is still nil. -/
theorem no_error_without_selection :
    (newModel refToolkit).mode = modeList ∧
    getSelectedIndex refToolkit (newModel refToolkit) = -1 ∧
    (Update refToolkit 0 (newModel refToolkit) (Msg.key "d")).1.err = Option.none ∧
    (Update refToolkit 0 (newModel refToolkit) (Msg.key "i")).1.err = Option.none ∧
    (Update refToolkit 0 (newModel refToolkit) (Msg.key "o")).1.err = Option.none := by
  decide

end Theorems

end EmpGo
